import Mathlib

/-!
# Battleship board, ships and turn loop

A shallow embedding of `ConsoleApplication9.cpp`.

* C++ `int` values are `Int`.  No arithmetic in the embedded functions can leave
  the 32-bit range on the paths that are modelled (loop counters stay below the
  ship length, and a coordinate is only incremented while it is inside the
  board), except the conversion done by `stoi`, which is modelled explicitly.
  The counter `shots_taken` grows by one per first-time shot of a game, and a
  10x10 board admits at most 100 of those.
* `Cell grid[10][10]` is a function on `Fin 10 × Fin 10`; an element access
  `grid[r][c]` with `int` indices is `Board.cellAt`, which is defined only
  inside the array.
* Member functions that mutate the board return the new board next to the
  returned value.
-/

namespace Lodicky

/-! ## Data model -/

/-- The enum `Cell`. -/
inductive Cell where
  | EMPTY
  | SHIP
  | HIT
  | MISS
deriving DecidableEq, Repr

/-- The enum `Orientation`. -/
inductive Orientation where
  | HORIZONTAL
  | VERTICAL
deriving DecidableEq, Repr

/-- The struct `Coord`; `operator==` is structural equality. -/
structure Coord where
  r : Int
  c : Int
deriving DecidableEq, Repr

/-- The struct `Ship`. -/
structure Ship where
  name : String
  length : Int
  coords : List Coord
  hit : List Bool
deriving DecidableEq, Repr

/-- The constructor `Ship(n, l)`: no coordinates and `l` hit flags, all false.
For a negative `l` the conversion to `size_t` makes `vector<bool>(l, false)`
throw, so no ship is constructed. -/
def Ship.construct (n : String) (l : Int) : Option Ship :=
  if 0 ≤ l then some ⟨n, l, [], List.replicate l.toNat false⟩ else none

/-- The method `Ship::is_sunk`: `all_of` over the hit flags. -/
def Ship.is_sunk (s : Ship) : Bool :=
  s.hit.all (fun h => h)

/-- The loop of `Ship::occupies` from index `i` on: the first index whose
coordinate equals `p`. -/
def Ship.occupies_from (p : Coord) : List Coord → Nat → Option Nat
  | [], _ => none
  | q :: qs, i => if q = p then some i else Ship.occupies_from p qs (i + 1)

/-- The method `Ship::occupies`: `some idx` stands for `idx = i, true`, and
`none` for `false` (with `idx` left untouched). -/
def Ship.occupies (s : Ship) (p : Coord) : Option Nat :=
  Ship.occupies_from p s.coords 0

/-- The struct `Board`, with `R = C = 10`. -/
structure Board where
  grid : Fin 10 → Fin 10 → Cell
  ships : List Ship

/-- The state set up by `Board::clear`, which the constructor `Board()` calls. -/
def Board.fresh : Board :=
  ⟨fun _ _ => Cell.EMPTY, []⟩

/-- The method `Board::clear`. -/
def Board.clear (_b : Board) : Board :=
  Board.fresh

/-- The method `Board::in_bounds` (it does not look at the board). -/
def Board.in_bounds (p : Coord) : Bool :=
  decide (p.r ≥ 0) && decide (p.r < 10) && decide (p.c ≥ 0) && decide (p.c < 10)

/-- Reading `grid[p.r][p.c]`: defined only when both indices are inside the
array. -/
def Board.cellAt (b : Board) (p : Coord) : Option Cell :=
  if h : 0 ≤ p.r ∧ p.r < 10 ∧ 0 ≤ p.c ∧ p.c < 10 then
    some (b.grid ⟨p.r.toNat, by omega⟩ ⟨p.c.toNat, by omega⟩)
  else none

/-- Writing `grid[p.r][p.c] = v`.  The embedded code writes only after a bounds
check; outside the array the model leaves the grid as it is. -/
def Board.setCell (b : Board) (p : Coord) (v : Cell) : Board :=
  { b with grid := fun i j => if (i.val : Int) = p.r ∧ (j.val : Int) = p.c then v else b.grid i j }

/-- The cell visited by iteration `i` of the loops of `can_place` and
`place_ship`: `{ r + (o == VERTICAL ? i : 0), c + (o == HORIZONTAL ? i : 0) }`. -/
def Board.target (r c : Int) (o : Orientation) (i : Nat) : Coord :=
  ⟨r + (if o = Orientation.VERTICAL then (i : Int) else 0),
   c + (if o = Orientation.HORIZONTAL then (i : Int) else 0)⟩

/-- The loop of `Board::can_place` at counter `i` with `n` iterations left.
The first component is the value returned, the second lists the coordinates at
which `grid[rr][cc]` is evaluated, in order (`||` evaluates its right operand
only when `in_bounds` holds). -/
def Board.can_place_loop (b : Board) (r c : Int) (o : Orientation) :
    Nat → Nat → Bool × List Coord
  | _, 0 => (true, [])
  | i, n + 1 =>
    if Board.in_bounds (Board.target r c o i) = false then (false, [])
    else if b.cellAt (Board.target r c o i) = some Cell.SHIP then
      (false, [Board.target r c o i])
    else
      ((Board.can_place_loop b r c o (i + 1) n).1,
       Board.target r c o i :: (Board.can_place_loop b r c o (i + 1) n).2)

/-- The method `Board::can_place`: the loop runs for `i = 0, ..., len - 1`. -/
def Board.can_place (b : Board) (r c : Int) (o : Orientation) (len : Int) : Bool :=
  (Board.can_place_loop b r c o 0 len.toNat).1

/-- The grid cells read by `Board::can_place`. -/
def Board.can_place_reads (b : Board) (r c : Int) (o : Orientation) (len : Int) :
    List Coord :=
  (Board.can_place_loop b r c o 0 len.toNat).2

/-- The loop of `Board::place_ship` at counter `i` with `n` iterations left:
mark the cell and push its coordinate onto the ship. -/
def Board.place_loop (r c : Int) (o : Orientation) : Nat → Nat → Board → Ship → Board × Ship
  | _, 0, b, s => (b, s)
  | i, n + 1, b, s =>
    Board.place_loop r c o (i + 1) n
      (b.setCell (Board.target r c o i) Cell.SHIP)
      { s with coords := s.coords ++ [Board.target r c o i] }

/-- The method `Board::place_ship`: the returned flag and the board after the
call.  The ship is passed by value, so the caller's ship is never changed. -/
def Board.place_ship (b : Board) (r c : Int) (o : Orientation) (s : Ship) : Bool × Board :=
  if b.can_place r c o s.length = false then (false, b)
  else
    let bs := Board.place_loop r c o 0 s.length.toNat b s
    (true, { bs.1 with ships := bs.1.ships ++ [bs.2] })

/-- The assignment `s.hit[idx] = true`.  An index outside the vector is
undefined behaviour in C++ and leaves the flags as they are here; on the boards
the game builds the index is inside the vector (`shoot_at_hit`). -/
def Ship.mark (s : Ship) (idx : Nat) : Ship :=
  { s with hit := s.hit.set idx true }

/-- The message returned by `shoot_at` for a hit on ship `s` (already marked). -/
def Ship.hit_message (s : Ship) : String :=
  if s.is_sunk then "Hit! You sank: " ++ s.name else "Hit!"

/-- The loop `for (auto& s : ships)` of `Board::shoot_at`: `some` carries the
ship list after the hit flag is set and the message of the `return` inside the
loop; `none` means the loop ran to its end. -/
def Board.shoot_loop (p : Coord) : List Ship → Option (List Ship × String)
  | [] => none
  | s :: rest =>
    match s.occupies p with
    | some idx => some (s.mark idx :: rest, (s.mark idx).hit_message)
    | none =>
      match Board.shoot_loop p rest with
      | some res => some (s :: res.1, res.2)
      | none => none

/-- The method `Board::shoot_at`: the returned pair and the board after the
call. -/
def Board.shoot_at (b : Board) (p : Coord) : (Bool × String) × Board :=
  if Board.in_bounds p = false then ((false, "Shot outside board."), b)
  else if b.cellAt p = some Cell.HIT ∨ b.cellAt p = some Cell.MISS then
    ((false, "Already shot here."), b)
  else if b.cellAt p = some Cell.SHIP then
    match Board.shoot_loop p b.ships with
    | some res => ((true, res.2), { b.setCell p Cell.HIT with ships := res.1 })
    | none => ((false, "Miss."), (b.setCell p Cell.HIT).setCell p Cell.MISS)
  else ((false, "Miss."), b.setCell p Cell.MISS)

/-- The method `Board::all_sunk`. -/
def Board.all_sunk (b : Board) : Bool :=
  b.ships.all Ship.is_sunk

/-! ## Coordinate parsing

A `std::string` is a list of characters and a `char` is identified with its
character code.  The classification functions are those of the "C" locale:
codes above 127 are neither spaces nor digits and `toupper` leaves them as they
are. -/

/-- The C function `isspace` in the "C" locale, on a character code: space,
`\t`, `\n`, `\v`, `\f`, `\r`. -/
def isspace (ch : Nat) : Bool :=
  decide (ch = 32) || (decide (9 ≤ ch) && decide (ch ≤ 13))

/-- The C function `isdigit` on a character code. -/
def isdigit (ch : Nat) : Bool :=
  decide (48 ≤ ch) && decide (ch ≤ 57)

/-- The C function `toupper` in the "C" locale, on a character code. -/
def toupper (ch : Nat) : Nat :=
  if 97 ≤ ch ∧ ch ≤ 122 then ch - 32 else ch

/-- The decimal value of a string of digits, most significant digit first. -/
def digits_value (row : List Char) : Nat :=
  row.foldl (fun acc ch => 10 * acc + (ch.toNat - 48)) 0

/-- The call `stoi(row)` on a non-empty string of decimal digits (the only
arguments it receives in `parse_coord`): the value when it fits a 32-bit `int`,
and `none` when `stoi` throws `std::out_of_range`. -/
def stoi (row : List Char) : Option Int :=
  if digits_value row ≤ 2147483647 then some (digits_value row : Int) else none

/-- The function `Game::parse_coord` on the characters of `s`, with `out` the
value of the output parameter before the call.  `some (ok, out')` is a normal
return of `ok` with the output parameter holding `out'`; `none` is the exception
of `stoi` leaving the function. -/
def parse_coord (s : List Char) (out : Coord) : Option (Bool × Coord) :=
  let t := s.filter (fun ch => !isspace ch.toNat)
  if t.length < 2 then some (false, out)
  else
    let col := toupper (t.headD ' ').toNat
    if col < 65 ∨ col > 74 then some (false, out)
    else
      let row := t.drop 1
      if row.all (fun ch => isdigit ch.toNat) = false then some (false, out)
      else
        match stoi row with
        | none => none
        | some r =>
          if r < 1 ∨ r > 10 then some (false, out)
          else some (true, ⟨r - 1, (col : Int) - 65⟩)

/-! ## Players and the turn loop -/

/-- The struct `Player`. -/
structure Player where
  name : String
  board : Board
  shots_taken : Int

/-- The two `Player` members of `Game`, as targets of the pointers `cur` and
`opp`. -/
inductive Who where
  | P1
  | P2
deriving DecidableEq, Repr

/-- The state of `Game::run` at the top of its loop: the members `p1`, `p2` and
the local pointers `cur`, `opp`. -/
structure RunState where
  p1 : Player
  p2 : Player
  cur : Who
  opp : Who

/-- Dereferencing a player pointer. -/
def RunState.player (st : RunState) : Who → Player
  | Who.P1 => st.p1
  | Who.P2 => st.p2

/-- Storing through a player pointer. -/
def RunState.update (st : RunState) (w : Who) (f : Player → Player) : RunState :=
  match w with
  | Who.P1 => { st with p1 := f st.p1 }
  | Who.P2 => { st with p2 := f st.p2 }

/-- The state on entry to the loop of `Game::run`. -/
def RunState.start (p1 p2 : Player) : RunState :=
  ⟨p1, p2, Who.P1, Who.P2⟩

/-- What one iteration of the loop of `Game::run` does next. -/
inductive Step where
  | again (st : RunState)
  | wins (winner : Who) (st : RunState)
  | aborted

/-- One iteration of the loop of `Game::run` from `opp->board.shoot_at(p)`
on, for a coordinate `p` that `parse_coord` accepted. -/
def Game.run_shot (st : RunState) (p : Coord) : Step :=
  let res := (st.player st.opp).board.shoot_at p
  let st1 := st.update st.opp (fun pl => { pl with board := res.2 })
  if res.1.2 = "Already shot here." then Step.again st1
  else
    let st2 := st1.update st1.cur (fun pl => { pl with shots_taken := pl.shots_taken + 1 })
    if res.1.1 = true then
      if (st2.player st2.opp).board.all_sunk = true then Step.wins st2.cur st2
      else Step.again st2
    else Step.again { st2 with cur := st2.opp, opp := st2.cur }

/-- One iteration of the loop of `Game::run` on the input line `s`.  Console
output and the key press awaited by `pause_clear` are not modelled.  An
exception leaving `parse_coord` is caught nowhere, so the process is aborted. -/
def Game.run_step (st : RunState) (s : List Char) : Step :=
  if s ≠ [] ∧ toupper (s.headD ' ').toNat = 80 then Step.again st
  else
    match parse_coord s ⟨0, 0⟩ with
    | none => Step.aborted
    | some (false, _) => Step.again st
    | some (true, p) => Game.run_shot st p

/-! ## Boards that the game can build -/

/-- Boards obtained from the empty board by `place_ship` calls (successful or
not) with ships constructed as `Ship(name, length)`. -/
inductive Placed : Board → Prop where
  | fresh : Placed Board.fresh
  | place (b : Board) (r c : Int) (o : Orientation) (n : String) (l : Int) (s : Ship) :
      Placed b → Ship.construct n l = some s → Placed (b.place_ship r c o s).2

/-- Boards obtained from a `Placed` board by any number of `shoot_at` calls:
the order in which `setup_players` and `run` use a board. -/
inductive Built : Board → Prop where
  | placed (b : Board) : Placed b → Built b
  | shoot (b : Board) (p : Coord) : Built b → Built (b.shoot_at p).2

/-- Boards obtained from the empty board by `place_ship` and `shoot_at` calls
in any order. -/
inductive Reachable : Board → Prop where
  | fresh : Reachable Board.fresh
  | place (b : Board) (r c : Int) (o : Orientation) (n : String) (l : Int) (s : Ship) :
      Reachable b → Ship.construct n l = some s → Reachable (b.place_ship r c o s).2
  | shoot (b : Board) (p : Coord) : Reachable b → Reachable (b.shoot_at p).2

/-- All ship coordinates of a board, ship after ship. -/
def Board.all_coords (b : Board) : List Coord :=
  b.ships.flatMap (fun s => s.coords)

/-- The coordinate `p` is at some index of the ship and the hit flag at that
index is `f`. -/
def Ship.Flag (s : Ship) (p : Coord) (f : Bool) : Prop :=
  ∃ i : Nat, s.coords[i]? = some p ∧ s.hit[i]? = some f

/-- The coordinate `p` is at some index of some ship of `b` and the hit flag at
that index is `f`. -/
def Board.Owned (b : Board) (p : Coord) (f : Bool) : Prop :=
  ∃ s ∈ b.ships, s.Flag p f

/-- The cells visited by `n` iterations of the placement loops from counter
`i` on, in order. -/
def Board.targets (r c : Int) (o : Orientation) : Nat → Nat → List Coord
  | _, 0 => []
  | i, n + 1 => Board.target r c o i :: Board.targets r c o (i + 1) n

/-- Well-formedness of a board: the ships' lists have the sizes the ship
records, no coordinate is listed twice, the SHIP cells are the ship coordinates
with an unset hit flag, and the HIT cells those with a set hit flag. -/
structure WellFormed (b : Board) : Prop where
  sizes : ∀ s ∈ b.ships, s.coords.length = s.hit.length ∧ (s.coords.length : Int) = s.length
  nodup : b.all_coords.Nodup
  ship_iff : ∀ p, b.cellAt p = some Cell.SHIP ↔ b.Owned p false
  hit_iff : ∀ p, b.cellAt p = some Cell.HIT ↔ b.Owned p true

/-- The board of the end-to-end scenario: one ship of length 2 at row 0,
columns 0 and 1. -/
def demo_board : Board :=
  (Board.fresh.place_ship 0 0 Orientation.HORIZONTAL
    ⟨"Destroyer", 2, [], List.replicate 2 false⟩).2

/-- A game state at the start of `run` in which player 2 owns `demo_board`. -/
def demo_state : RunState :=
  RunState.start ⟨"Player 1", Board.fresh, 0⟩ ⟨"Player 2", demo_board, 0⟩

/-- The scenario board after the shot at row 0, column 0. -/
def demo_hit : Board :=
  (demo_board.shoot_at ⟨0, 0⟩).2

/-- A second ship placed across the cell of `demo_hit` that was already hit. -/
def overlap_board : Board :=
  (demo_hit.place_ship 0 0 Orientation.VERTICAL ⟨"Patrol", 2, [], List.replicate 2 false⟩).2

/-- A game state in which player 2 owns `demo_hit`: one unhit ship cell is
left. -/
def demo_last_state : RunState :=
  RunState.start ⟨"Player 1", Board.fresh, 0⟩ ⟨"Player 2", demo_hit, 1⟩

/-! ## Further definitions: runs of the turn loop, grid accesses, rendering -/

/-- Iterations of the loop of `Game::run` on the accepted coordinates `ps`, one
after the other, until the list ends or `run` returns. -/
def Game.run_shots (st : RunState) : List Coord → Step
  | [] => Step.again st
  | p :: ps =>
    match Game.run_shot st p with
    | Step.again st' => Game.run_shots st' ps
    | Step.wins w st' => Step.wins w st'
    | Step.aborted => Step.aborted

/-- The number of first-time shots (shots at a cell of the opponent's board
that is not yet HIT or MISS) that player `w` fires while the loop runs on
`ps`. -/
def Game.first_shots (w : Who) (st : RunState) : List Coord → Nat
  | [] => 0
  | p :: ps =>
    (if st.cur = w ∧ ¬ ((st.player st.opp).board.cellAt p = some Cell.HIT ∨
        (st.player st.opp).board.cellAt p = some Cell.MISS) then 1 else 0) +
    match Game.run_shot st p with
    | Step.again st' => Game.first_shots w st' ps
    | _ => 0

/-- The grid cells that `Board::shoot_at` accesses: the reference
`Cell& c = grid[p.r][p.c]` is bound after the bounds check has passed, and no
other cell is named in the function. -/
def Board.shoot_at_reads (p : Coord) : List Coord :=
  if Board.in_bounds p = false then [] else [p]

/-- The method `Board::display_row_labels`, as the text written to `cout`. -/
def Board.display_row_labels : List Char :=
  [' ', ' ', ' '] ++ (List.finRange 10).flatMap (fun c => [Char.ofNat (65 + c.val), ' ']) ++
    ['\n']

/-- The text of `cout << setw(2) << n`: the decimal digits of `n`, padded with
spaces on the left to width 2. -/
def setw2 (n : Nat) : List Char :=
  List.replicate (2 - (Nat.toDigits 10 n).length) ' ' ++ Nat.toDigits 10 n

/-- The `switch` of `Board::display`: the character shown for a cell. -/
def Board.cell_char (showShips : Bool) : Cell → Char
  | Cell.SHIP => if showShips then 'S' else '.'
  | Cell.HIT => 'X'
  | Cell.MISS => 'O'
  | Cell.EMPTY => '.'

/-- The method `Board::display`, as the text written to `cout`. -/
def Board.display (b : Board) (showShips : Bool) : List Char :=
  Board.display_row_labels ++
    (List.finRange 10).flatMap (fun r =>
      setw2 (r.val + 1) ++ [' '] ++
        (List.finRange 10).flatMap (fun c => [Board.cell_char showShips (b.grid r c), ' ']) ++
        ['\n'])

/-- The method `Game::display_opponent_view`, as the text written to `cout`. -/
def Game.display_opponent_view (b : Board) : List Char :=
  Board.display_row_labels ++
    (List.finRange 10).flatMap (fun r =>
      setw2 (r.val + 1) ++ [' '] ++
        (List.finRange 10).flatMap (fun c =>
          [if b.grid r c = Cell.HIT then 'X' else if b.grid r c = Cell.MISS then 'O' else '.',
           ' ']) ++
        ['\n'])

/-- The member `Game::ship_defs`. -/
def Game.ship_defs : List (String × Int) :=
  [("Carrier", 5), ("Battleship", 4), ("Cruiser", 3), ("Submarine", 3), ("Destroyer", 2)]

/-- The number of ship coordinates of the board whose cell is HIT. -/
def Board.hit_cells (b : Board) : Nat :=
  b.all_coords.countP (fun q => decide (b.cellAt q = some Cell.HIT))

/-- A board with the whole fleet of `ship_defs` placed, one ship per row from
row 0 on, each starting at column 0. -/
def fleet_board : Board :=
  (((((Board.fresh.place_ship 0 0 Orientation.HORIZONTAL
      ⟨"Carrier", 5, [], List.replicate 5 false⟩).2.place_ship 1 0 Orientation.HORIZONTAL
      ⟨"Battleship", 4, [], List.replicate 4 false⟩).2.place_ship 2 0 Orientation.HORIZONTAL
      ⟨"Cruiser", 3, [], List.replicate 3 false⟩).2.place_ship 3 0 Orientation.HORIZONTAL
      ⟨"Submarine", 3, [], List.replicate 3 false⟩).2.place_ship 4 0 Orientation.HORIZONTAL
      ⟨"Destroyer", 2, [], List.replicate 2 false⟩).2

/-! ## Grid access -/

theorem in_bounds_iff (p : Coord) :
    Board.in_bounds p = true ↔ 0 ≤ p.r ∧ p.r < 10 ∧ 0 ≤ p.c ∧ p.c < 10 := by
  simp [Board.in_bounds, and_assoc]

theorem in_bounds_eq_false_iff (p : Coord) :
    Board.in_bounds p = false ↔ ¬ (0 ≤ p.r ∧ p.r < 10 ∧ 0 ≤ p.c ∧ p.c < 10) := by
  rw [← in_bounds_iff]; simp

theorem cellAt_of_not_in_bounds (b : Board) (p : Coord) (h : Board.in_bounds p = false) :
    b.cellAt p = none := by
  rw [in_bounds_eq_false_iff] at h
  simp [Board.cellAt, h]

theorem cellAt_some_in_bounds (b : Board) (p : Coord) (v : Cell) (h : b.cellAt p = some v) :
    Board.in_bounds p = true := by
  by_contra hn
  rw [Bool.not_eq_true] at hn
  rw [cellAt_of_not_in_bounds b p hn] at h
  cases h

theorem cellAt_isSome_of_in_bounds (b : Board) (p : Coord) (h : Board.in_bounds p = true) :
    ∃ v, b.cellAt p = some v := by
  rw [in_bounds_iff] at h
  refine ⟨b.grid ⟨p.r.toNat, by omega⟩ ⟨p.c.toNat, by omega⟩, ?_⟩
  simp only [Board.cellAt, h, and_self, dite_true]

theorem cellAt_setCell_self (b : Board) (p : Coord) (v : Cell) (h : Board.in_bounds p = true) :
    (b.setCell p v).cellAt p = some v := by
  rw [in_bounds_iff] at h
  have h1 : ((p.r.toNat : Nat) : Int) = p.r := by omega
  have h2 : ((p.c.toNat : Nat) : Int) = p.c := by omega
  simp [Board.cellAt, Board.setCell, h, h1, h2]

theorem cellAt_setCell_ne (b : Board) (p q : Coord) (v : Cell) (h : q ≠ p) :
    (b.setCell p v).cellAt q = b.cellAt q := by
  unfold Board.cellAt
  by_cases hq : 0 ≤ q.r ∧ q.r < 10 ∧ 0 ≤ q.c ∧ q.c < 10
  · simp only [hq, and_self, dite_true, Board.setCell]
    have hne : ¬ (((q.r.toNat : Nat) : Int) = p.r ∧ ((q.c.toNat : Nat) : Int) = p.c) := by
      rintro ⟨h1, h2⟩
      apply h
      cases p; cases q
      simp only [Coord.mk.injEq] at *
      omega
    rw [if_neg hne]
  · simp [hq]

theorem ships_setCell (b : Board) (p : Coord) (v : Cell) : (b.setCell p v).ships = b.ships := rfl

theorem setCell_setCell (b : Board) (p : Coord) (v w : Cell) :
    (b.setCell p v).setCell p w = b.setCell p w := by
  simp only [Board.setCell]
  congr 1
  funext i j
  by_cases h : (i.val : Int) = p.r ∧ (j.val : Int) = p.c <;> simp [h]

/-! ## Placement check -/

theorem can_place_loop_fst (b : Board) (r c : Int) (o : Orientation) (n : Nat) :
    ∀ i : Nat, (Board.can_place_loop b r c o i n).1 = true ↔
      ∀ k : Nat, k < n → Board.in_bounds (Board.target r c o (i + k)) = true ∧
        b.cellAt (Board.target r c o (i + k)) ≠ some Cell.SHIP := by
  induction n with
  | zero => intro i; simp [Board.can_place_loop]
  | succ n ih =>
    intro i
    rw [Board.can_place_loop]
    by_cases hb : Board.in_bounds (Board.target r c o i) = false
    · rw [if_pos hb]
      constructor
      · intro h; cases h
      · intro h
        have h0 := (h 0 (Nat.succ_pos n)).1
        rw [Nat.add_zero, hb] at h0
        cases h0
    · rw [if_neg hb]
      by_cases hs : b.cellAt (Board.target r c o i) = some Cell.SHIP
      · rw [if_pos hs]
        constructor
        · intro h; cases h
        · intro h
          exact absurd hs (h 0 (Nat.succ_pos n)).2
      · rw [if_neg hs]
        show (Board.can_place_loop b r c o (i + 1) n).1 = true ↔ _
        rw [ih (i + 1)]
        constructor
        · intro h k hk
          cases k with
          | zero => exact ⟨by simpa using hb, hs⟩
          | succ k =>
            have := h k (Nat.lt_of_succ_lt_succ hk)
            rwa [show i + 1 + k = i + (k + 1) by omega] at this
        · intro h k hk
          have := h (k + 1) (Nat.succ_lt_succ hk)
          rwa [show i + (k + 1) = i + 1 + k by omega] at this

theorem can_place_loop_reads (b : Board) (r c : Int) (o : Orientation) (n : Nat) :
    ∀ i : Nat, ∀ q ∈ (Board.can_place_loop b r c o i n).2, Board.in_bounds q = true := by
  induction n with
  | zero => intro i q hq; simp [Board.can_place_loop] at hq
  | succ n ih =>
    intro i q hq
    rw [Board.can_place_loop] at hq
    by_cases hb : Board.in_bounds (Board.target r c o i) = false
    · rw [if_pos hb] at hq; simp at hq
    · rw [if_neg hb] at hq
      have hb1 : Board.in_bounds (Board.target r c o i) = true := by simpa using hb
      by_cases hs : b.cellAt (Board.target r c o i) = some Cell.SHIP
      · rw [if_pos hs] at hq
        rw [List.mem_singleton.mp hq]; exact hb1
      · rw [if_neg hs] at hq
        rcases List.mem_cons.mp hq with h | h
        · rw [h]; exact hb1
        · exact ih (i + 1) q h

theorem can_place_iff (b : Board) (r c : Int) (o : Orientation) (len : Int) :
    b.can_place r c o len = true ↔
      ∀ k : Nat, (k : Int) < len → Board.in_bounds (Board.target r c o k) = true ∧
        b.cellAt (Board.target r c o k) ≠ some Cell.SHIP := by
  unfold Board.can_place
  rw [can_place_loop_fst]
  constructor
  · intro h k hk
    have := h k (by omega)
    rwa [Nat.zero_add] at this
  · intro h k hk
    rw [Nat.zero_add]
    exact h k (by omega)

/-- C5: `can_place(r, c, o, len)` is true exactly when each of the cells
`(r + i, c)` (VERTICAL) or `(r, c + i)` (HORIZONTAL), `0 <= i < len`, is inside
the 10x10 grid and not marked SHIP, for any integers `r`, `c`, `len`; and every
grid cell it reads is inside the grid.  The function is `const`: it returns a
flag only, so the board is the same after the call. -/
theorem can_place_spec (b : Board) (r c : Int) (o : Orientation) (len : Int) :
    (b.can_place r c o len = true ↔
      ∀ i : Int, 0 ≤ i → i < len →
        (o = Orientation.VERTICAL →
          (0 ≤ r + i ∧ r + i < 10 ∧ 0 ≤ c ∧ c < 10) ∧ b.cellAt ⟨r + i, c⟩ ≠ some Cell.SHIP) ∧
        (o = Orientation.HORIZONTAL →
          (0 ≤ r ∧ r < 10 ∧ 0 ≤ c + i ∧ c + i < 10) ∧ b.cellAt ⟨r, c + i⟩ ≠ some Cell.SHIP)) ∧
    (∀ q ∈ b.can_place_reads r c o len, 0 ≤ q.r ∧ q.r < 10 ∧ 0 ≤ q.c ∧ q.c < 10) := by
  refine ⟨?_, ?_⟩
  · rw [can_place_iff]
    constructor
    · intro h i h0 hi
      have hk := h i.toNat (by omega)
      have hi' : ((i.toNat : Nat) : Int) = i := by omega
      rw [in_bounds_iff] at hk
      cases o <;> simp [Board.target, hi'] at hk ⊢ <;> exact hk
    · intro h k hk
      have hi := h (k : Int) (by omega) hk
      rw [in_bounds_iff]
      cases o <;> simp [Board.target] at hi ⊢ <;> exact hi
  · intro q hq
    rw [← in_bounds_iff]
    exact can_place_loop_reads b r c o _ 0 q hq

theorem can_place_spec_witness :
    Board.fresh.can_place 2 3 Orientation.VERTICAL 4 = true ∧
    Board.fresh.can_place 0 7 Orientation.HORIZONTAL 5 = false ∧
    Board.fresh.can_place (-1) 0 Orientation.VERTICAL 0 = true ∧
    (0 : Int) ≤ (⟨2 + 1, 3⟩ : Coord).r ∧
    Board.fresh.cellAt ⟨2 + 1, 3⟩ ≠ some Cell.SHIP := by
  have h := can_place_spec Board.fresh 2 3 Orientation.VERTICAL 4
  have hv : Board.fresh.can_place 2 3 Orientation.VERTICAL 4 = true := by decide
  have h1 := (h.1.mp hv 1 (by decide) (by decide)).1 rfl
  exact ⟨hv, by decide, by decide, h1.1.1, h1.2⟩

/-! ## Placement -/

/-- C4: `place_ship` returns exactly what `can_place(r, c, o, ship.length)`
returns, and when it returns false the board (grid and ship list) is the one
before the call; the ship is a by-value argument, so the caller's ship is
never touched.  A length-5 ship placed horizontally at row 0, column 7 of the
empty board is rejected and the board stays empty. -/
theorem place_ship_all_or_nothing (b : Board) (r c : Int) (o : Orientation) (s : Ship) :
    (b.place_ship r c o s).1 = b.can_place r c o s.length ∧
    ((b.place_ship r c o s).1 = false → (b.place_ship r c o s).2 = b) ∧
    (s.length = 5 →
      Board.fresh.place_ship 0 7 Orientation.HORIZONTAL s = (false, Board.fresh)) := by
  refine ⟨?_, ?_, ?_⟩
  · unfold Board.place_ship
    by_cases h : b.can_place r c o s.length = false
    · rw [if_pos h, h]
    · rw [if_neg h]
      simpa using h
  · unfold Board.place_ship
    by_cases h : b.can_place r c o s.length = false
    · rw [if_pos h]; intro _; rfl
    · rw [if_neg h]; intro h'; cases h'
  · intro h5
    have hc : Board.fresh.can_place 0 7 Orientation.HORIZONTAL s.length = false := by
      rw [h5]; decide
    unfold Board.place_ship
    rw [if_pos hc]

theorem place_ship_all_or_nothing_witness :
    (Board.fresh.place_ship 0 7 Orientation.HORIZONTAL
        ⟨"Carrier", 5, [], List.replicate 5 false⟩).1 = false ∧
    (Board.fresh.place_ship 0 7 Orientation.HORIZONTAL
        ⟨"Carrier", 5, [], List.replicate 5 false⟩).2 = Board.fresh := by
  have h := place_ship_all_or_nothing Board.fresh 0 7 Orientation.HORIZONTAL
    ⟨"Carrier", 5, [], List.replicate 5 false⟩
  have h3 := h.2.2 rfl
  exact ⟨by rw [h3], by rw [h3]⟩

/-! ## Shots: the four outcomes -/

theorem shoot_at_outside (b : Board) (p : Coord) (h : Board.in_bounds p = false) :
    b.shoot_at p = ((false, "Shot outside board."), b) := by
  unfold Board.shoot_at
  rw [if_pos h]

theorem shoot_at_already (b : Board) (p : Coord)
    (h : b.cellAt p = some Cell.HIT ∨ b.cellAt p = some Cell.MISS) :
    b.shoot_at p = ((false, "Already shot here."), b) := by
  have hb : Board.in_bounds p = true := by
    rcases h with h | h <;> exact cellAt_some_in_bounds b p _ h
  unfold Board.shoot_at
  rw [if_neg (by simp [hb]), if_pos h]

theorem shoot_at_empty (b : Board) (p : Coord) (h : b.cellAt p = some Cell.EMPTY) :
    b.shoot_at p = ((false, "Miss."), b.setCell p Cell.MISS) := by
  have hb : Board.in_bounds p = true := cellAt_some_in_bounds b p _ h
  unfold Board.shoot_at
  rw [if_neg (by simp [hb]), if_neg (by simp [h]), if_neg (by simp [h])]

theorem shoot_at_ship (b : Board) (p : Coord) (h : b.cellAt p = some Cell.SHIP) :
    b.shoot_at p =
      match Board.shoot_loop p b.ships with
      | some res => ((true, res.2), { b.setCell p Cell.HIT with ships := res.1 })
      | none => ((false, "Miss."), (b.setCell p Cell.HIT).setCell p Cell.MISS) := by
  have hb : Board.in_bounds p = true := cellAt_some_in_bounds b p _ h
  unfold Board.shoot_at
  rw [if_neg (by simp [hb]), if_neg (by simp [h]), if_pos h]

theorem cellAt_cases (b : Board) (p : Coord) (h : Board.in_bounds p = true) :
    b.cellAt p = some Cell.EMPTY ∨ b.cellAt p = some Cell.SHIP ∨
      b.cellAt p = some Cell.HIT ∨ b.cellAt p = some Cell.MISS := by
  obtain ⟨v, hv⟩ := cellAt_isSome_of_in_bounds b p h
  rw [hv]
  cases v <;> simp

theorem shoot_at_cell_after (b : Board) (p : Coord) (h : Board.in_bounds p = true) :
    (b.shoot_at p).2.cellAt p = some Cell.HIT ∨ (b.shoot_at p).2.cellAt p = some Cell.MISS := by
  rcases cellAt_cases b p h with he | hs | hh | hm
  · rw [shoot_at_empty b p he]
    exact Or.inr (cellAt_setCell_self b p _ h)
  · rw [shoot_at_ship b p hs]
    cases hl : Board.shoot_loop p b.ships with
    | none =>
      right
      show ((b.setCell p Cell.HIT).setCell p Cell.MISS).cellAt p = some Cell.MISS
      exact cellAt_setCell_self _ p _ h
    | some res =>
      left
      show (b.setCell p Cell.HIT).cellAt p = some Cell.HIT
      exact cellAt_setCell_self _ p _ h
  · rw [shoot_at_already b p (Or.inl hh)]; exact Or.inl hh
  · rw [shoot_at_already b p (Or.inr hm)]; exact Or.inr hm

/-- C6: for any board and any in-bounds `p`, a second `shoot_at(p)` right after
a first one returns `(false, "Already shot here.")` and leaves the whole board
(grid, ships and their hit flags) as the first call left it; and `shoot_at` on a
cell that is already HIT or MISS returns `(false, "Already shot here.")` and
changes nothing. -/
theorem shoot_at_repeat (b : Board) (p : Coord) :
    (Board.in_bounds p = true →
      (b.shoot_at p).2.shoot_at p = ((false, "Already shot here."), (b.shoot_at p).2)) ∧
    (b.cellAt p = some Cell.HIT ∨ b.cellAt p = some Cell.MISS →
      b.shoot_at p = ((false, "Already shot here."), b)) :=
  ⟨fun h => shoot_at_already _ p (shoot_at_cell_after b p h), shoot_at_already b p⟩

theorem shoot_loop_message (p : Coord) (ships : List Ship) :
    ∀ res, Board.shoot_loop p ships = some res → ∃ s : Ship, res.2 = s.hit_message := by
  induction ships with
  | nil => intro res h; simp [Board.shoot_loop] at h
  | cons s rest ih =>
    intro res h
    rw [Board.shoot_loop] at h
    cases ho : s.occupies p with
    | some idx =>
      rw [ho] at h
      simp only [Option.some.injEq] at h
      exact ⟨s.mark idx, by rw [← h]⟩
    | none =>
      rw [ho] at h
      cases hl : Board.shoot_loop p rest with
      | none => rw [hl] at h; cases h
      | some r =>
        rw [hl] at h
        simp only [Option.some.injEq] at h
        obtain ⟨s', hs'⟩ := ih r hl
        exact ⟨s', by rw [← h]; exact hs'⟩

theorem hit_message_ne (s : Ship) :
    s.hit_message ≠ "Already shot here." ∧ s.hit_message ≠ "Shot outside board." ∧
      s.hit_message ≠ "Miss." := by
  unfold Ship.hit_message
  by_cases h : s.is_sunk = true
  · rw [if_pos h]
    refine ⟨?_, ?_, ?_⟩ <;>
    · intro h'
      have := congrArg String.data h'
      simp at this
  · rw [if_neg h]
    refine ⟨?_, ?_, ?_⟩ <;> decide

theorem shoot_at_cases (b : Board) (p : Coord) :
    (Board.in_bounds p = false ∧ b.shoot_at p = ((false, "Shot outside board."), b)) ∨
    ((b.cellAt p = some Cell.HIT ∨ b.cellAt p = some Cell.MISS) ∧
      b.shoot_at p = ((false, "Already shot here."), b)) ∨
    (b.cellAt p = some Cell.SHIP ∧ ∃ res, Board.shoot_loop p b.ships = some res ∧
      b.shoot_at p = ((true, res.2), { b.setCell p Cell.HIT with ships := res.1 })) ∨
    (b.cellAt p = some Cell.SHIP ∧ Board.shoot_loop p b.ships = none ∧
      b.shoot_at p = ((false, "Miss."), (b.setCell p Cell.HIT).setCell p Cell.MISS)) ∨
    (b.cellAt p = some Cell.EMPTY ∧ b.shoot_at p = ((false, "Miss."), b.setCell p Cell.MISS)) := by
  by_cases hb : Board.in_bounds p = true
  · rcases cellAt_cases b p hb with he | hs | hh | hm
    · exact Or.inr (Or.inr (Or.inr (Or.inr ⟨he, shoot_at_empty b p he⟩)))
    · have := shoot_at_ship b p hs
      cases hl : Board.shoot_loop p b.ships with
      | none =>
        rw [hl] at this
        exact Or.inr (Or.inr (Or.inr (Or.inl ⟨hs, rfl, this⟩)))
      | some res =>
        rw [hl] at this
        exact Or.inr (Or.inr (Or.inl ⟨hs, res, rfl, this⟩))
    · exact Or.inr (Or.inl ⟨Or.inl hh, shoot_at_already b p (Or.inl hh)⟩)
    · exact Or.inr (Or.inl ⟨Or.inr hm, shoot_at_already b p (Or.inr hm)⟩)
  · have hb' : Board.in_bounds p = false := by simpa using hb
    exact Or.inl ⟨hb', shoot_at_outside b p hb'⟩

theorem shoot_at_message_outside (b : Board) (p : Coord) (h : Board.in_bounds p = true) :
    (b.shoot_at p).1.2 ≠ "Shot outside board." := by
  rcases shoot_at_cases b p with ⟨hb, _⟩ | ⟨_, he⟩ | ⟨_, res, hl, he⟩ | ⟨_, _, he⟩ | ⟨_, he⟩
  · rw [h] at hb; cases hb
  · rw [he]; show "Already shot here." ≠ "Shot outside board."; decide
  · rw [he]
    obtain ⟨s, hs⟩ := shoot_loop_message p b.ships res hl
    show res.2 ≠ _
    rw [hs]; exact (hit_message_ne s).2.1
  · rw [he]; show "Miss." ≠ "Shot outside board."; decide
  · rw [he]; show "Miss." ≠ "Shot outside board."; decide

/-! ## Coordinate parsing -/

theorem parse_coord_filter (s : List Char) (out : Coord) :
    parse_coord s out = parse_coord (s.filter (fun ch => !isspace ch.toNat)) out := by
  unfold parse_coord
  simp only [List.filter_filter, Bool.and_self]

theorem filter_padded (f : Char → Bool) (pre post body : List Char)
    (hpre : ∀ ch ∈ pre, f ch = false) (hpost : ∀ ch ∈ post, f ch = false)
    (hbody : ∀ ch ∈ body, f ch = true) :
    (pre ++ (body ++ post)).filter f = body := by
  rw [List.filter_append, List.filter_append]
  have h1 : pre.filter f = [] := List.filter_eq_nil_iff.mpr (by simpa using hpre)
  have h2 : post.filter f = [] := List.filter_eq_nil_iff.mpr (by simpa using hpost)
  have h3 : body.filter f = body := List.filter_eq_self.mpr hbody
  rw [h1, h2, h3]; simp

theorem letter_of_index (k : Nat) (L : Char)
    (h : ['A', 'B', 'C', 'D', 'E', 'F', 'G', 'H', 'I', 'J'][k]? = some L ∨
         ['a', 'b', 'c', 'd', 'e', 'f', 'g', 'h', 'i', 'j'][k]? = some L) :
    k < 10 ∧ (L = Char.ofNat (65 + k) ∨ L = Char.ofNat (97 + k)) := by
  have hk : k < 10 := by
    by_contra hk
    rcases h with h | h <;>
    · rw [List.getElem?_eq_none (by simpa using hk)] at h
      cases h
  refine ⟨hk, ?_⟩
  interval_cases k <;> rcases h with h | h <;> simp at h <;> subst h <;> simp

theorem parse_coord_plain (k n : Nat) (L : Char) (out : Coord) (hk : k < 10)
    (hL : L = Char.ofNat (65 + k) ∨ L = Char.ofNat (97 + k)) (h1 : 1 ≤ n) (h10 : n ≤ 10) :
    parse_coord (L :: Nat.toDigits 10 n) out = some (true, ⟨(n : Int) - 1, (k : Int)⟩) := by
  interval_cases k <;> interval_cases n <;> rcases hL with h | h <;> subst h <;> rfl

theorem parse_coord_true_in_bounds (s : List Char) (out p : Coord)
    (h : parse_coord s out = some (true, p)) : 0 ≤ p.r ∧ p.r ≤ 9 ∧ 0 ≤ p.c ∧ p.c ≤ 9 := by
  unfold parse_coord at h
  simp only at h
  split at h
  · cases h
  · split at h
    · cases h
    · split at h
      · cases h
      · split at h
        · cases h
        · split at h
          · cases h
          · rename_i hcol _ _ _ hr
            simp only [Option.some.injEq, Prod.mk.injEq, true_and] at h
            subst h
            simp only
            omega


/-! ## The turn loop -/

theorem shoot_at_message_already (b : Board) (p : Coord) :
    (b.shoot_at p).1.2 = "Already shot here." ↔
      (b.cellAt p = some Cell.HIT ∨ b.cellAt p = some Cell.MISS) := by
  rcases shoot_at_cases b p with ⟨hb, he⟩ | ⟨hc, he⟩ | ⟨hc, res, hl, he⟩ | ⟨hc, _, he⟩ | ⟨hc, he⟩
  · rw [he, cellAt_of_not_in_bounds b p hb]
    simp only [reduceCtorEq, or_self, iff_false]
    decide
  · rw [he]; simp [hc]
  · rw [he, hc]
    obtain ⟨s, hs⟩ := shoot_loop_message p b.ships res hl
    simp only [Option.some.injEq, reduceCtorEq, or_self, iff_false]
    rw [hs]; exact (hit_message_ne s).1
  · rw [he, hc]
    simp only [Option.some.injEq, reduceCtorEq, or_self, iff_false]
    decide
  · rw [he, hc]
    simp only [Option.some.injEq, reduceCtorEq, or_self, iff_false]
    decide

theorem shoot_at_hit_not_already (b : Board) (p : Coord) (h : (b.shoot_at p).1.1 = true) :
    (b.shoot_at p).1.2 ≠ "Already shot here." := by
  rcases shoot_at_cases b p with ⟨_, he⟩ | ⟨_, he⟩ | ⟨_, res, hl, he⟩ | ⟨_, _, he⟩ | ⟨_, he⟩
  · rw [he] at h; cases h
  · rw [he] at h; cases h
  · rw [he]
    obtain ⟨s, hs⟩ := shoot_loop_message p b.ships res hl
    show res.2 ≠ _
    rw [hs]; exact (hit_message_ne s).1
  · rw [he] at h; cases h
  · rw [he] at h; cases h

theorem run_shot_opp_board (st : RunState) (b : Board) :
    (((st.update st.opp (fun pl => { pl with board := b })).update
        (st.update st.opp (fun pl => { pl with board := b })).cur
        (fun pl => { pl with shots_taken := pl.shots_taken + 1 })).player
      ((st.update st.opp (fun pl => { pl with board := b })).update
        (st.update st.opp (fun pl => { pl with board := b })).cur
        (fun pl => { pl with shots_taken := pl.shots_taken + 1 })).opp).board = b := by
  obtain ⟨p1, p2, cur, opp⟩ := st
  cases cur <;> cases opp <;> rfl

theorem update_cur (st : RunState) (w : Who) (f : Player → Player) :
    (st.update w f).cur = st.cur := by
  cases w <;> rfl

theorem update_opp (st : RunState) (w : Who) (f : Player → Player) :
    (st.update w f).opp = st.opp := by
  cases w <;> rfl

theorem update_board_self (st : RunState) (w : Who) :
    st.update w (fun pl => { pl with board := (st.player w).board }) = st := by
  cases w <;> rfl


theorem run_shot_already (st : RunState) (p : Coord)
    (h : (st.player st.opp).board.cellAt p = some Cell.HIT ∨
      (st.player st.opp).board.cellAt p = some Cell.MISS) :
    Game.run_shot st p = Step.again st := by
  unfold Game.run_shot
  simp only
  rw [if_pos ((shoot_at_message_already _ p).mpr h), shoot_at_already _ p h]
  simp only
  rw [update_board_self]

theorem run_shot_hit (st : RunState) (p : Coord)
    (h : ((st.player st.opp).board.shoot_at p).1.1 = true) :
    ∃ st', st'.cur = st.cur ∧ st'.opp = st.opp ∧
      Game.run_shot st p =
        if ((st.player st.opp).board.shoot_at p).2.all_sunk = true then Step.wins st.cur st'
        else Step.again st' := by
  unfold Game.run_shot
  simp only
  rw [if_neg (shoot_at_hit_not_already _ p h), if_pos h, run_shot_opp_board]
  simp only [update_cur]
  refine ⟨_, ?_, ?_, rfl⟩
  · simp only [update_cur]
  · simp only [update_opp]

theorem run_shot_miss (st : RunState) (p : Coord)
    (hnew : ¬ ((st.player st.opp).board.cellAt p = some Cell.HIT ∨
      (st.player st.opp).board.cellAt p = some Cell.MISS))
    (h : ((st.player st.opp).board.shoot_at p).1.1 = false) :
    ∃ st', st'.cur = st.opp ∧ st'.opp = st.cur ∧ Game.run_shot st p = Step.again st' := by
  unfold Game.run_shot
  simp only
  rw [if_neg (fun hm => hnew ((shoot_at_message_already _ p).mp hm)), if_neg (by simp [h])]
  refine ⟨_, ?_, ?_, rfl⟩
  · simp only [update_opp]
  · simp only [update_cur]

/-- C2: in one iteration of `Game::run` on an accepted coordinate `p` whose cell
on the opponent's board is not already HIT or MISS, a hit that leaves the
opponent's board not all sunk keeps `cur` and `opp` as they are, and a miss
swaps them; in both cases the loop goes on. -/
theorem run_shot_turn (st : RunState) (p : Coord)
    (hnew : (st.player st.opp).board.cellAt p ≠ some Cell.HIT ∧
      (st.player st.opp).board.cellAt p ≠ some Cell.MISS) :
    (((st.player st.opp).board.shoot_at p).1.1 = true →
      ((st.player st.opp).board.shoot_at p).2.all_sunk = false →
      ∃ st', Game.run_shot st p = Step.again st' ∧ st'.cur = st.cur ∧ st'.opp = st.opp) ∧
    (((st.player st.opp).board.shoot_at p).1.1 = false →
      ∃ st', Game.run_shot st p = Step.again st' ∧ st'.cur = st.opp ∧ st'.opp = st.cur) := by
  refine ⟨?_, ?_⟩
  · intro hh hs
    obtain ⟨st', h1, h2, h3⟩ := run_shot_hit st p hh
    rw [if_neg (by simp [hs])] at h3
    exact ⟨st', h3, h1, h2⟩
  · intro hm
    obtain ⟨st', h1, h2, h3⟩ := run_shot_miss st p (by tauto) hm
    exact ⟨st', h3, h1, h2⟩


theorem pause_not_parsed (s : List Char) (out p : Coord)
    (hp : s ≠ [] ∧ toupper (s.headD ' ').toNat = 80) : parse_coord s out ≠ some (true, p) := by
  obtain ⟨hne, hup⟩ := hp
  cases s with
  | nil => exact absurd rfl hne
  | cons ch rest =>
    simp only [List.headD_cons] at hup
    have hch : ch.toNat = 80 ∨ ch.toNat = 112 := by
      unfold toupper at hup
      split at hup <;> omega
    have hsp : (!isspace ch.toNat) = true := by
      rcases hch with h | h <;> rw [h] <;> rfl
    have hf : (ch :: rest).filter (fun ch => !isspace ch.toNat) =
        ch :: rest.filter (fun ch => !isspace ch.toNat) := List.filter_cons_of_pos hsp
    intro h
    unfold parse_coord at h
    rw [hf] at h
    simp only [List.headD_cons, hup] at h
    split at h
    · cases h
    · simp at h

theorem run_step_parsed (st : RunState) (s : List Char) (p : Coord)
    (h : parse_coord s ⟨0, 0⟩ = some (true, p)) : Game.run_step st s = Game.run_shot st p := by
  unfold Game.run_step
  rw [if_neg (fun hp => pause_not_parsed s ⟨0, 0⟩ p hp h), h]

/-- C10: a letter `L` at position `k` of `A..J` or of `a..j`, followed by the
decimal digits of `n` in `1..10`, with any whitespace before and after, is
accepted by `parse_coord` with row `n - 1` and column `k`; every coordinate
that `parse_coord` accepts has row and column in `0..9`, so `in_bounds` holds
for it, a shot at it never returns "Shot outside board.", and the iteration of
`Game::run` that read the line goes on to `shoot_at` with that coordinate. -/
theorem parse_coord_accepts :
    (∀ (k n : Nat) (L : Char) (pre post : List Char) (out : Coord),
      (['A', 'B', 'C', 'D', 'E', 'F', 'G', 'H', 'I', 'J'][k]? = some L ∨
        ['a', 'b', 'c', 'd', 'e', 'f', 'g', 'h', 'i', 'j'][k]? = some L) →
      1 ≤ n → n ≤ 10 →
      (∀ ch ∈ pre, isspace ch.toNat = true) → (∀ ch ∈ post, isspace ch.toNat = true) →
      parse_coord (pre ++ (L :: Nat.toDigits 10 n ++ post)) out =
        some (true, ⟨(n : Int) - 1, (k : Int)⟩)) ∧
    (∀ (s : List Char) (out p : Coord), parse_coord s out = some (true, p) →
      (0 ≤ p.r ∧ p.r ≤ 9 ∧ 0 ≤ p.c ∧ p.c ≤ 9) ∧ Board.in_bounds p = true ∧
      ∀ (b : Board) (st : RunState), (b.shoot_at p).1.2 ≠ "Shot outside board." ∧
        (out = ⟨0, 0⟩ → Game.run_step st s = Game.run_shot st p)) := by
  refine ⟨?_, ?_⟩
  · intro k n L pre post out hL h1 h10 hpre hpost
    obtain ⟨hk, hL'⟩ := letter_of_index k L hL
    have hbody : ∀ ch ∈ L :: Nat.toDigits 10 n, (!isspace ch.toNat) = true := by
      interval_cases k <;> interval_cases n <;> rcases hL' with h | h <;> subst h <;> decide
    rw [parse_coord_filter, filter_padded _ pre post (L :: Nat.toDigits 10 n)
      (by simpa using hpre) (by simpa using hpost) hbody]
    exact parse_coord_plain k n L out hk hL' h1 h10
  · intro s out p h
    have hp := parse_coord_true_in_bounds s out p h
    have hin : Board.in_bounds p = true := by rw [in_bounds_iff]; omega
    refine ⟨hp, hin, fun b st => ⟨shoot_at_message_outside b p hin, fun ho => ?_⟩⟩
    rw [ho] at h
    exact run_step_parsed st s p h

theorem parse_coord_accepts_witness :
    parse_coord [' ', 'b', '1', '0', '\t', '\n'] ⟨7, 7⟩ = some (true, ⟨9, 1⟩) ∧
    (Board.fresh.shoot_at ⟨9, 1⟩).1.2 ≠ "Shot outside board." := by
  have h := parse_coord_accepts.1 1 10 'b' [' '] ['\t', '\n'] ⟨7, 7⟩ (Or.inr rfl)
    (by decide) (by decide) (by decide) (by decide)
  exact ⟨h, ((parse_coord_accepts.2 _ _ _ h).2.2 Board.fresh demo_state).1⟩


/-! ## Rejected input -/

theorem parse_coord_rejects (s : List Char) (out : Coord)
    (hfit : digits_value ((s.filter (fun ch => !isspace ch.toNat)).drop 1) ≤ 2147483647)
    (hbad : (s.filter (fun ch => !isspace ch.toNat)).length < 2 ∨
      ¬ ((65 ≤ ((s.filter (fun ch => !isspace ch.toNat)).headD ' ').toNat ∧
            ((s.filter (fun ch => !isspace ch.toNat)).headD ' ').toNat ≤ 74) ∨
          (97 ≤ ((s.filter (fun ch => !isspace ch.toNat)).headD ' ').toNat ∧
            ((s.filter (fun ch => !isspace ch.toNat)).headD ' ').toNat ≤ 106)) ∨
      (∃ ch ∈ (s.filter (fun ch => !isspace ch.toNat)).drop 1, isdigit ch.toNat = false) ∨
      digits_value ((s.filter (fun ch => !isspace ch.toNat)).drop 1) < 1 ∨
      10 < digits_value ((s.filter (fun ch => !isspace ch.toNat)).drop 1)) :
    parse_coord s out = some (false, out) := by
  unfold parse_coord
  simp only
  generalize s.filter (fun ch => !isspace ch.toNat) = t at hfit hbad ⊢
  by_cases h1 : t.length < 2
  · rw [if_pos h1]
  · rw [if_neg h1]
    by_cases h2 : toupper (t.headD ' ').toNat < 65 ∨ toupper (t.headD ' ').toNat > 74
    · rw [if_pos h2]
    · rw [if_neg h2]
      by_cases h3 : (List.drop 1 t).all (fun ch => isdigit ch.toNat) = false
      · rw [if_pos h3]
      · rw [if_neg h3]
        unfold stoi
        rw [if_pos hfit]
        simp only
        by_cases h4 : (digits_value (List.drop 1 t) : Int) < 1 ∨ (digits_value (List.drop 1 t) : Int) > 10
        · rw [if_pos h4]
        · exfalso
          rcases hbad with hb | hb | hb | hb | hb
          · exact h1 hb
          · apply hb
            unfold toupper at h2
            split at h2 <;> omega
          · apply h3
            obtain ⟨ch, hch, hd⟩ := hb
            rw [List.all_eq_false]
            exact ⟨ch, hch, by simp [hd]⟩
          · omega
          · omega

/-- C9 fails on the code: the input `A2147483648` is malformed in the sense of
the claim (a letter followed by a digit string whose value is not in `1..10`),
but `parse_coord` does not return false on it: `stoi` throws
`std::out_of_range`, `parse_coord` is left by the exception, and the iteration
of `Game::run` that read the line aborts. -/
theorem parse_coord_overflow (st : RunState) (out : Coord) :
    (['2', '1', '4', '7', '4', '8', '3', '6', '4', '8'].all (fun ch => isdigit ch.toNat) = true ∧
      ¬ (1 ≤ digits_value ['2', '1', '4', '7', '4', '8', '3', '6', '4', '8'] ∧
        digits_value ['2', '1', '4', '7', '4', '8', '3', '6', '4', '8'] ≤ 10)) ∧
    parse_coord ['A', '2', '1', '4', '7', '4', '8', '3', '6', '4', '8'] out = none ∧
    Game.run_step st ['A', '2', '1', '4', '7', '4', '8', '3', '6', '4', '8'] = Step.aborted := by
  refine ⟨⟨by decide, by decide⟩, rfl, rfl⟩

/-! ## Placement loop -/

theorem mem_targets (r c : Int) (o : Orientation) (n : Nat) :
    ∀ (i : Nat) (q : Coord), q ∈ Board.targets r c o i n ↔ ∃ k, k < n ∧ q = Board.target r c o (i + k) := by
  induction n with
  | zero => intro i q; simp [Board.targets]
  | succ n ih =>
    intro i q
    rw [Board.targets, List.mem_cons, ih]
    constructor
    · rintro (h | ⟨k, hk, h⟩)
      · exact ⟨0, Nat.succ_pos n, by rw [h, Nat.add_zero]⟩
      · exact ⟨k + 1, Nat.succ_lt_succ hk, by rw [h, show i + 1 + k = i + (k + 1) by omega]⟩
    · rintro ⟨k, hk, h⟩
      cases k with
      | zero => left; rw [h, Nat.add_zero]
      | succ k =>
        right
        exact ⟨k, Nat.lt_of_succ_lt_succ hk, by rw [h, show i + 1 + k = i + (k + 1) by omega]⟩

theorem length_targets (r c : Int) (o : Orientation) (n : Nat) :
    ∀ i : Nat, (Board.targets r c o i n).length = n := by
  induction n with
  | zero => intro i; rfl
  | succ n ih => intro i; rw [Board.targets, List.length_cons, ih]

theorem target_inj (r c : Int) (o : Orientation) (i j : Nat)
    (h : Board.target r c o i = Board.target r c o j) : i = j := by
  unfold Board.target at h
  cases o <;> simp at h <;> omega

theorem nodup_targets (r c : Int) (o : Orientation) (n : Nat) :
    ∀ i : Nat, (Board.targets r c o i n).Nodup := by
  induction n with
  | zero => intro i; simp [Board.targets]
  | succ n ih =>
    intro i
    rw [Board.targets, List.nodup_cons]
    refine ⟨?_, ih (i + 1)⟩
    rw [mem_targets]
    rintro ⟨k, _, h⟩
    have := target_inj r c o _ _ h
    omega

theorem place_loop_ship (r c : Int) (o : Orientation) (n : Nat) :
    ∀ (i : Nat) (b : Board) (s : Ship),
      (Board.place_loop r c o i n b s).2 =
        { s with coords := s.coords ++ Board.targets r c o i n } := by
  induction n with
  | zero => intro i b s; simp [Board.place_loop, Board.targets]
  | succ n ih =>
    intro i b s
    rw [Board.place_loop, ih]
    simp [Board.targets]

theorem place_loop_ships (r c : Int) (o : Orientation) (n : Nat) :
    ∀ (i : Nat) (b : Board) (s : Ship), (Board.place_loop r c o i n b s).1.ships = b.ships := by
  induction n with
  | zero => intro i b s; rfl
  | succ n ih =>
    intro i b s
    rw [Board.place_loop, ih]
    rfl

theorem place_loop_cell (r c : Int) (o : Orientation) (n : Nat) :
    ∀ (i : Nat) (b : Board) (s : Ship) (q : Coord),
      (∀ t ∈ Board.targets r c o i n, Board.in_bounds t = true) →
      (Board.place_loop r c o i n b s).1.cellAt q =
        if q ∈ Board.targets r c o i n then some Cell.SHIP else b.cellAt q := by
  induction n with
  | zero => intro i b s q _; simp [Board.place_loop, Board.targets]
  | succ n ih =>
    intro i b s q hin
    rw [Board.place_loop, ih]
    · rw [Board.targets]
      by_cases h1 : q ∈ Board.targets r c o (i + 1) n
      · rw [if_pos h1, if_pos (List.mem_cons_of_mem _ h1)]
      · rw [if_neg h1]
        by_cases h2 : q = Board.target r c o i
        · rw [if_pos (by rw [h2]; exact List.mem_cons_self _ _), h2]
          exact cellAt_setCell_self _ _ _ (hin _ (by rw [Board.targets]; exact List.mem_cons_self _ _))
        · rw [if_neg (by rw [List.mem_cons]; tauto)]
          exact cellAt_setCell_ne _ _ _ _ h2
    · intro t ht
      exact hin t (by rw [Board.targets]; exact List.mem_cons_of_mem _ ht)

theorem can_place_iff_targets (b : Board) (r c : Int) (o : Orientation) (len : Int) :
    b.can_place r c o len = true ↔
      ∀ q ∈ Board.targets r c o 0 len.toNat,
        Board.in_bounds q = true ∧ b.cellAt q ≠ some Cell.SHIP := by
  rw [can_place_iff]
  constructor
  · intro h q hq
    obtain ⟨k, hk, rfl⟩ := (mem_targets r c o _ 0 q).mp hq
    rw [Nat.zero_add]
    exact h k (by omega)
  · intro h k hk
    apply h
    rw [mem_targets]
    exact ⟨k, by omega, by rw [Nat.zero_add]⟩

/-- The board and the ship after a successful `place_ship`. -/
theorem place_ship_success (b : Board) (r c : Int) (o : Orientation) (s : Ship)
    (h : b.can_place r c o s.length = true) :
    (b.place_ship r c o s).1 = true ∧
    (b.place_ship r c o s).2.ships =
      b.ships ++ [{ s with coords := s.coords ++ Board.targets r c o 0 s.length.toNat }] ∧
    ∀ q, (b.place_ship r c o s).2.cellAt q =
      if q ∈ Board.targets r c o 0 s.length.toNat then some Cell.SHIP else b.cellAt q := by
  have hin : ∀ t ∈ Board.targets r c o 0 s.length.toNat, Board.in_bounds t = true :=
    fun t ht => ((can_place_iff_targets b r c o s.length).mp h t ht).1
  unfold Board.place_ship
  rw [if_neg (by simp [h])]
  refine ⟨rfl, ?_, ?_⟩
  · show (Board.place_loop r c o 0 s.length.toNat b s).1.ships ++
      [(Board.place_loop r c o 0 s.length.toNat b s).2] = _
    rw [place_loop_ships, place_loop_ship]
  · intro q
    rw [← place_loop_cell r c o _ 0 b s q hin]
    rfl

theorem place_ship_failure (b : Board) (r c : Int) (o : Orientation) (s : Ship)
    (h : b.can_place r c o s.length = false) :
    b.place_ship r c o s = (false, b) := by
  unfold Board.place_ship
  rw [if_pos h]

/-! ## Finding the ship that was hit -/

theorem occupies_from_some (p : Coord) (cs : List Coord) :
    ∀ i j, Ship.occupies_from p cs i = some j → ∃ k, j = i + k ∧ cs[k]? = some p := by
  induction cs with
  | nil => intro i j h; simp [Ship.occupies_from] at h
  | cons q qs ih =>
    intro i j h
    rw [Ship.occupies_from] at h
    by_cases hq : q = p
    · rw [if_pos hq] at h
      exact ⟨0, by simpa using h.symm, by simp [hq]⟩
    · rw [if_neg hq] at h
      obtain ⟨k, hk, hk'⟩ := ih (i + 1) j h
      exact ⟨k + 1, by omega, by simpa using hk'⟩

theorem occupies_from_none (p : Coord) (cs : List Coord) :
    ∀ i, Ship.occupies_from p cs i = none ↔ p ∉ cs := by
  induction cs with
  | nil => intro i; simp [Ship.occupies_from]
  | cons q qs ih =>
    intro i
    rw [Ship.occupies_from]
    by_cases hq : q = p
    · rw [if_pos hq]; simp [hq]
    · rw [if_neg hq, ih, List.mem_cons]
      constructor
      · rintro h (h' | h')
        · exact hq h'.symm
        · exact h h'
      · intro h h'; exact h (Or.inr h')

theorem occupies_some (s : Ship) (p : Coord) (j : Nat) (h : s.occupies p = some j) :
    s.coords[j]? = some p := by
  obtain ⟨k, hk, hk'⟩ := occupies_from_some p s.coords 0 j h
  rw [Nat.zero_add] at hk
  rw [hk]; exact hk'

theorem occupies_none (s : Ship) (p : Coord) : s.occupies p = none ↔ p ∉ s.coords :=
  occupies_from_none p s.coords 0

theorem shoot_loop_none (p : Coord) (ships : List Ship) :
    Board.shoot_loop p ships = none ↔ ∀ s ∈ ships, p ∉ s.coords := by
  induction ships with
  | nil => simp [Board.shoot_loop]
  | cons s rest ih =>
    rw [Board.shoot_loop]
    cases ho : s.occupies p with
    | some idx =>
      simp only [reduceCtorEq, false_iff]
      intro h
      have := (occupies_none s p).mpr (h s (List.mem_cons_self _ _))
      rw [ho] at this; cases this
    | none =>
      have hs := (occupies_none s p).mp ho
      cases hl : Board.shoot_loop p rest with
      | none =>
        simp only [true_iff]
        intro s' hs'
        rcases List.mem_cons.mp hs' with h | h
        · rw [h]; exact hs
        · exact (ih.mp hl) s' h
      | some res =>
        simp only [reduceCtorEq, false_iff]
        intro h
        have := ih.mpr (fun s' hs' => h s' (List.mem_cons_of_mem _ hs'))
        rw [hl] at this; cases this

theorem shoot_loop_some (p : Coord) (ships : List Ship) :
    ∀ res, Board.shoot_loop p ships = some res →
      ∃ l1 s l2 j, ships = l1 ++ s :: l2 ∧ (∀ s' ∈ l1, p ∉ s'.coords) ∧
        s.occupies p = some j ∧ res = (l1 ++ s.mark j :: l2, (s.mark j).hit_message) := by
  induction ships with
  | nil => intro res h; simp [Board.shoot_loop] at h
  | cons s rest ih =>
    intro res h
    rw [Board.shoot_loop] at h
    cases ho : s.occupies p with
    | some idx =>
      rw [ho] at h
      simp only [Option.some.injEq] at h
      exact ⟨[], s, rest, idx, rfl, by simp, ho, h.symm⟩
    | none =>
      rw [ho] at h
      cases hl : Board.shoot_loop p rest with
      | none => rw [hl] at h; cases h
      | some r =>
        rw [hl] at h
        simp only [Option.some.injEq] at h
        obtain ⟨l1, s0, l2, j, h1, h2, h3, h4⟩ := ih r hl
        refine ⟨s :: l1, s0, l2, j, by rw [h1]; rfl, ?_, h3, ?_⟩
        · intro s' hs'
          rcases List.mem_cons.mp hs' with h' | h'
          · rw [h']; exact (occupies_none s p).mp ho
          · exact h2 s' h'
        · rw [← h, h4]; rfl

theorem nodup_split (l1 l2 : List Ship) (s : Ship)
    (h : ((l1 ++ s :: l2).flatMap (fun s => s.coords)).Nodup) :
    s.coords.Nodup ∧ ∀ p ∈ s.coords, ∀ s' ∈ l1 ++ l2, p ∉ s'.coords := by
  rw [List.flatMap_append, List.flatMap_cons, List.nodup_append, List.nodup_append] at h
  obtain ⟨_, ⟨hs, _, hd2⟩, hd1⟩ := h
  refine ⟨hs, ?_⟩
  intro p hp s' hs' hp'
  rcases List.mem_append.mp hs' with h1 | h2
  · exact hd1 (List.mem_flatMap.mpr ⟨s', h1, hp'⟩) (List.mem_append_left _ hp)
  · exact hd2 hp (List.mem_flatMap.mpr ⟨s', h2, hp'⟩)

theorem flag_mark (s : Ship) (p q : Coord) (j : Nat) (f : Bool) (hn : s.coords.Nodup)
    (hj : s.coords[j]? = some p) (hlen : j < s.hit.length) :
    (s.mark j).Flag q f ↔ (q = p ∧ f = true) ∨ (q ≠ p ∧ s.Flag q f) := by
  have hjc : j < s.coords.length := (List.getElem?_eq_some.mp hj).1
  constructor
  · rintro ⟨i, hi, hf⟩
    change (s.hit.set j true)[i]? = some f at hf
    change s.coords[i]? = some q at hi
    by_cases hij : i = j
    · subst hij
      rw [hi] at hj
      rw [List.getElem?_set_self hlen] at hf
      left
      exact ⟨Option.some.inj hj, (Option.some.inj hf).symm⟩
    · right
      rw [List.getElem?_set_ne (Ne.symm hij)] at hf
      refine ⟨?_, i, hi, hf⟩
      intro hqp
      apply hij
      have hic : i < s.coords.length := (List.getElem?_eq_some.mp hi).1
      exact List.getElem?_inj hic hn (by rw [hi, hj, hqp])
  · rintro (⟨hq, hf⟩ | ⟨hq, i, hi, hf⟩)
    · refine ⟨j, by rw [hq]; exact hj, ?_⟩
      change (s.hit.set j true)[j]? = some f
      rw [List.getElem?_set_self hlen, hf]
    · refine ⟨i, hi, ?_⟩
      change (s.hit.set j true)[i]? = some f
      have hij : j ≠ i := by
        intro hij
        rw [hij, hi] at hj
        exact hq (Option.some.inj hj)
      rw [List.getElem?_set_ne hij]
      exact hf

/-! ## Well-formed boards -/

theorem exists_mem_split (P : Ship → Prop) (l1 l2 : List Ship) (s : Ship) :
    (∃ x ∈ l1 ++ s :: l2, P x) ↔ (∃ x ∈ l1 ++ l2, P x) ∨ P s := by
  constructor
  · rintro ⟨x, hx, hp⟩
    rcases List.mem_append.mp hx with h | h
    · exact Or.inl ⟨x, List.mem_append_left _ h, hp⟩
    · rcases List.mem_cons.mp h with h | h
      · right; rw [← h]; exact hp
      · exact Or.inl ⟨x, List.mem_append_right _ h, hp⟩
  · rintro (⟨x, hx, hp⟩ | hp)
    · rcases List.mem_append.mp hx with h | h
      · exact ⟨x, List.mem_append_left _ h, hp⟩
      · exact ⟨x, List.mem_append_right _ (List.mem_cons_of_mem _ h), hp⟩
    · exact ⟨s, List.mem_append_right _ (List.mem_cons_self _ _), hp⟩

theorem flag_mem (s : Ship) (p : Coord) (f : Bool) (h : s.Flag p f) : p ∈ s.coords := by
  obtain ⟨i, hi, _⟩ := h
  exact List.getElem?_mem hi

/-- On a well-formed board a shot at a SHIP cell finds exactly one ship and one
index, and `shoot_at` sets the flag there. -/
theorem shoot_at_ship_wf (b : Board) (p : Coord) (h : WellFormed b)
    (hs : b.cellAt p = some Cell.SHIP) :
    ∃ l1 s l2 j, b.ships = l1 ++ s :: l2 ∧ s.coords[j]? = some p ∧ s.hit[j]? = some false ∧
      s.coords.Nodup ∧ (∀ s' ∈ l1 ++ l2, p ∉ s'.coords) ∧
      b.shoot_at p = ((true, (s.mark j).hit_message),
        { b.setCell p Cell.HIT with ships := l1 ++ s.mark j :: l2 }) := by
  obtain ⟨s0, hs0, hflag⟩ := (h.ship_iff p).mp hs
  have hsome : Board.shoot_loop p b.ships ≠ none := by
    intro hn
    exact (shoot_loop_none p b.ships).mp hn s0 hs0 (flag_mem s0 p false hflag)
  cases hl : Board.shoot_loop p b.ships with
  | none => exact absurd hl hsome
  | some res =>
    obtain ⟨l1, s, l2, j, h1, _, h3, h4⟩ := shoot_loop_some p b.ships res hl
    have hj := occupies_some s p j h3
    have hnd := h.nodup
    unfold Board.all_coords at hnd
    rw [h1] at hnd
    obtain ⟨hn, hdis⟩ := nodup_split l1 l2 s hnd
    have hother := hdis p (List.getElem?_mem hj)
    refine ⟨l1, s, l2, j, h1, hj, ?_, hn, hother, ?_⟩
    · rw [h1] at hs0
      rcases (exists_mem_split (fun x => x = s0) l1 l2 s).mp ⟨s0, hs0, rfl⟩ with ⟨x, hx, hx'⟩ | hx
      · rw [hx'] at hx
        exact absurd (flag_mem s0 p false hflag) (hother s0 hx)
      · obtain ⟨i, hi, hf⟩ := hflag
        rw [← hx] at hi hf
        have hij : i = j :=
          List.getElem?_inj (List.getElem?_eq_some.mp hi).1 hn (by rw [hi, hj])
        rw [← hij]; exact hf
    · rw [shoot_at_ship b p hs, hl, h4]

theorem owned_after_hit (b b' : Board) (l1 l2 : List Ship) (s : Ship) (p q : Coord)
    (j : Nat) (f : Bool)
    (h1 : b.ships = l1 ++ s :: l2) (h2 : b'.ships = l1 ++ s.mark j :: l2)
    (hj : s.coords[j]? = some p) (hlen : j < s.hit.length) (hn : s.coords.Nodup)
    (hother : ∀ s' ∈ l1 ++ l2, p ∉ s'.coords) :
    b'.Owned q f ↔ (q = p ∧ f = true) ∨ (q ≠ p ∧ b.Owned q f) := by
  unfold Board.Owned
  rw [h1, h2, exists_mem_split, exists_mem_split, flag_mark s p q j f hn hj hlen]
  constructor
  · rintro (⟨x, hx, hp⟩ | hp | ⟨hq, hp⟩)
    · right
      refine ⟨?_, Or.inl ⟨x, hx, hp⟩⟩
      intro hqp
      rw [hqp] at hp
      exact hother x hx (flag_mem x p f hp)
    · exact Or.inl hp
    · exact Or.inr ⟨hq, Or.inr hp⟩
  · rintro (hp | ⟨hq, ⟨x, hx, hp⟩ | hp⟩)
    · exact Or.inr (Or.inl hp)
    · exact Or.inl ⟨x, hx, hp⟩
    · exact Or.inr (Or.inr ⟨hq, hp⟩)

theorem wellFormed_shoot (b : Board) (p : Coord) (h : WellFormed b) :
    WellFormed (b.shoot_at p).2 := by
  rcases shoot_at_cases b p with ⟨_, he⟩ | ⟨_, he⟩ | ⟨hc, _, _, _⟩ | ⟨hc, hl, _⟩ | ⟨hc, he⟩
  · rw [he]; exact h
  · rw [he]; exact h
  · obtain ⟨l1, s, l2, j, h1, hj, hf, hn, hother, he⟩ := shoot_at_ship_wf b p h hc
    have hb := cellAt_some_in_bounds b p _ hc
    have hlen : j < s.hit.length := (List.getElem?_eq_some.mp hf).1
    rw [he]
    have hown : ∀ q f, Board.Owned { b.setCell p Cell.HIT with ships := l1 ++ s.mark j :: l2 } q f ↔
        (q = p ∧ f = true) ∨ (q ≠ p ∧ b.Owned q f) :=
      fun q f => owned_after_hit b _ l1 l2 s p q j f h1 rfl hj hlen hn hother
    have hcell : ∀ q, Board.cellAt { b.setCell p Cell.HIT with ships := l1 ++ s.mark j :: l2 } q =
        (b.setCell p Cell.HIT).cellAt q := fun q => rfl
    refine ⟨?_, ?_, ?_, ?_⟩
    · intro s' hs'
      rcases (exists_mem_split (fun x => x = s') l1 l2 (s.mark j)).mp ⟨s', hs', rfl⟩ with
        ⟨x, hx, hx'⟩ | hx
      · rw [← hx']
        exact h.sizes x (by
          rw [h1]
          rcases List.mem_append.mp hx with h' | h'
          · exact List.mem_append_left _ h'
          · exact List.mem_append_right _ (List.mem_cons_of_mem _ h'))
      · rw [← hx]
        have := h.sizes s (by rw [h1]; exact List.mem_append_right _ (List.mem_cons_self _ _))
        simpa [Ship.mark] using this
    · have := h.nodup
      unfold Board.all_coords at this ⊢
      rw [h1] at this
      simpa [Ship.mark] using this
    · intro q
      rw [hown, hcell]
      by_cases hq : q = p
      · rw [hq, cellAt_setCell_self b p _ hb]
        simp
      · rw [cellAt_setCell_ne b p q _ hq, h.ship_iff q]
        simp [hq]
    · intro q
      rw [hown, hcell]
      by_cases hq : q = p
      · rw [hq, cellAt_setCell_self b p _ hb]
        simp
      · rw [cellAt_setCell_ne b p q _ hq, h.hit_iff q]
        simp [hq]
  · exfalso
    obtain ⟨s0, hs0, hflag⟩ := (h.ship_iff p).mp hc
    exact (shoot_loop_none p b.ships).mp hl s0 hs0 (flag_mem s0 p false hflag)
  · rw [he]
    have hb := cellAt_some_in_bounds b p _ hc
    have hno : ∀ f, ¬ b.Owned p f := by
      intro f hf
      cases f with
      | false => have := (h.ship_iff p).mpr hf; rw [hc] at this; cases this
      | true => have := (h.hit_iff p).mpr hf; rw [hc] at this; cases this
    refine ⟨h.sizes, h.nodup, ?_, ?_⟩
    · intro q
      by_cases hq : q = p
      · rw [hq, cellAt_setCell_self b p _ hb]
        constructor
        · intro h'; cases h'
        · intro h'; exact absurd h' (hno false)
      · rw [cellAt_setCell_ne b p q _ hq]
        exact h.ship_iff q
    · intro q
      by_cases hq : q = p
      · rw [hq, cellAt_setCell_self b p _ hb]
        constructor
        · intro h'; cases h'
        · intro h'; exact absurd h' (hno true)
      · rw [cellAt_setCell_ne b p q _ hq]
        exact h.hit_iff q

theorem flag_of_mem_coords (s : Ship) (q : Coord) (hlen : s.coords.length = s.hit.length)
    (hq : q ∈ s.coords) : ∃ f, s.Flag q f ∧ f ∈ s.hit := by
  obtain ⟨i, hi⟩ := List.mem_iff_getElem?.mp hq
  have hic : i < s.coords.length := (List.getElem?_eq_some.mp hi).1
  have hih : i < s.hit.length := by omega
  exact ⟨s.hit[i], ⟨i, hi, List.getElem?_eq_getElem hih⟩, List.getElem_mem hih⟩

theorem construct_eq (n : String) (l : Int) (s : Ship) (h : Ship.construct n l = some s) :
    0 ≤ l ∧ s = ⟨n, l, [], List.replicate l.toNat false⟩ := by
  unfold Ship.construct at h
  split at h
  · rename_i hl
    exact ⟨hl, (Option.some.inj h).symm⟩
  · cases h

theorem flag_new_ship (n : String) (l : Int) (T : List Coord) (hT : T.length = l.toNat)
    (q : Coord) (f : Bool) :
    Ship.Flag ⟨n, l, [] ++ T, List.replicate l.toNat false⟩ q f ↔ q ∈ T ∧ f = false := by
  constructor
  · rintro ⟨i, hi, hf⟩
    simp only [List.nil_append] at hi
    refine ⟨List.getElem?_mem hi, ?_⟩
    have := List.getElem?_mem hf
    exact (List.mem_replicate.mp this).2
  · rintro ⟨hq, hf⟩
    obtain ⟨i, hi⟩ := List.mem_iff_getElem?.mp hq
    have hic : i < T.length := (List.getElem?_eq_some.mp hi).1
    refine ⟨i, by simpa using hi, ?_⟩
    show (List.replicate l.toNat false)[i]? = some f
    rw [List.getElem?_replicate, if_pos (by omega), hf]

theorem exists_mem_concat (P : Ship → Prop) (l : List Ship) (s : Ship) :
    (∃ x ∈ l ++ [s], P x) ↔ (∃ x ∈ l, P x) ∨ P s := by
  have := exists_mem_split P l [] s
  simpa using this

theorem wellFormed_fresh : WellFormed Board.fresh := by
  refine ⟨?_, ?_, ?_, ?_⟩
  · intro s hs; cases hs
  · exact List.nodup_nil
  · intro p
    constructor
    · intro h
      unfold Board.cellAt Board.fresh at h
      split at h <;> simp at h
    · rintro ⟨s, hs, _⟩; cases hs
  · intro p
    constructor
    · intro h
      unfold Board.cellAt Board.fresh at h
      split at h <;> simp at h
    · rintro ⟨s, hs, _⟩; cases hs

theorem wellFormed_place (b : Board) (r c : Int) (o : Orientation) (n : String) (l : Int)
    (s : Ship) (h : WellFormed b) (hu : ∀ s' ∈ b.ships, ∀ f ∈ s'.hit, f = false)
    (hc : Ship.construct n l = some s) :
    WellFormed (b.place_ship r c o s).2 ∧
      ∀ s' ∈ (b.place_ship r c o s).2.ships, ∀ f ∈ s'.hit, f = false := by
  obtain ⟨hl, hs⟩ := construct_eq n l s hc
  subst hs
  by_cases hcp : b.can_place r c o l = true
  · obtain ⟨_, hships, hcell⟩ := place_ship_success b r c o
      ⟨n, l, [], List.replicate l.toNat false⟩ hcp
    simp only at hships hcell
    have hT := (can_place_iff_targets b r c o l).mp hcp
    have hTlen := length_targets r c o l.toNat 0
    have hfresh : ∀ q ∈ Board.targets r c o 0 l.toNat, q ∉ b.all_coords := by
      intro q hq hmem
      obtain ⟨s0, hs0, hq0⟩ := List.mem_flatMap.mp hmem
      obtain ⟨f, hflag, hf⟩ := flag_of_mem_coords s0 q (h.sizes s0 hs0).1 hq0
      rw [hu s0 hs0 f hf] at hflag
      exact (hT q hq).2 ((h.ship_iff q).mpr ⟨s0, hs0, hflag⟩)
    have hown : ∀ q f, (b.place_ship r c o ⟨n, l, [], List.replicate l.toNat false⟩).2.Owned q f ↔
        b.Owned q f ∨ (q ∈ Board.targets r c o 0 l.toNat ∧ f = false) := by
      intro q f
      unfold Board.Owned
      rw [hships, exists_mem_concat, flag_new_ship n l _ hTlen]
    have hmemc : ∀ q f, b.Owned q f → q ∈ b.all_coords := by
      rintro q f ⟨s0, hs0, hflag⟩
      exact List.mem_flatMap.mpr ⟨s0, hs0, flag_mem s0 q f hflag⟩
    refine ⟨⟨?_, ?_, ?_, ?_⟩, ?_⟩
    · intro s' hs'
      rw [hships] at hs'
      rcases List.mem_append.mp hs' with h' | h'
      · exact h.sizes s' h'
      · rw [List.mem_singleton.mp h']
        simp only [List.nil_append, hTlen, List.length_replicate, true_and]
        omega
    · unfold Board.all_coords
      rw [hships, List.flatMap_append]
      simp only [List.flatMap_cons, List.flatMap_nil, List.nil_append, List.append_nil]
      refine List.Nodup.append h.nodup (nodup_targets r c o _ 0) ?_
      intro q hq1 hq2
      exact hfresh q hq2 hq1
    · intro q
      rw [hown, hcell]
      by_cases hq : q ∈ Board.targets r c o 0 l.toNat
      · rw [if_pos hq]; simp [hq]
      · rw [if_neg hq, h.ship_iff q]; simp [hq]
    · intro q
      rw [hown, hcell]
      by_cases hq : q ∈ Board.targets r c o 0 l.toNat
      · rw [if_pos hq]
        constructor
        · intro h'; cases h'
        · rintro (h' | ⟨_, h'⟩)
          · exact absurd (hmemc q true h') (hfresh q hq)
          · cases h'
      · rw [if_neg hq, h.hit_iff q]; simp [hq]
    · intro s' hs' f hf
      rw [hships] at hs'
      rcases List.mem_append.mp hs' with h' | h'
      · exact hu s' h' f hf
      · rw [List.mem_singleton.mp h'] at hf
        exact (List.mem_replicate.mp hf).2
  · have hcp' : b.can_place r c o l = false := by simpa using hcp
    rw [place_ship_failure b r c o _ hcp']
    exact ⟨h, hu⟩

theorem placed_wellFormed (b : Board) (h : Placed b) :
    WellFormed b ∧ ∀ s ∈ b.ships, ∀ f ∈ s.hit, f = false := by
  induction h with
  | fresh => exact ⟨wellFormed_fresh, fun s hs => by cases hs⟩
  | place b r c o n l s _ hc ih => exact wellFormed_place b r c o n l s ih.1 ih.2 hc

theorem built_wellFormed (b : Board) (h : Built b) : WellFormed b := by
  induction h with
  | placed b hb => exact (placed_wellFormed b hb).1
  | shoot b p _ ih => exact wellFormed_shoot b p ih

/-! ## Hits and sinking -/

/-- C1: on a board built by `place_ship` calls with constructed ships followed
by `shoot_at` calls, a shot at a cell marked SHIP sets that cell to HIT; exactly
one ship lists `p`, at exactly one index `i`, which is inside its hit list;
`shoot_at` sets that flag and touches no other ship; it returns `true` with
"Hit! You sank: " followed by the ship's name when all flags of that ship are
then set and "Hit!" otherwise; the miss branch is not reached. -/
theorem shoot_at_hit (b : Board) (p : Coord) (hb : Built b)
    (hs : b.cellAt p = some Cell.SHIP) :
    ∃ l1 s l2 i, b.ships = l1 ++ s :: l2 ∧ s.coords[i]? = some p ∧ i < s.hit.length ∧
      (∀ s' ∈ l1 ++ l2, p ∉ s'.coords) ∧ (∀ i', s.coords[i']? = some p → i' = i) ∧
      (b.shoot_at p).2.cellAt p = some Cell.HIT ∧
      (b.shoot_at p).2.ships = l1 ++ { s with hit := s.hit.set i true } :: l2 ∧
      (b.shoot_at p).1 =
        (true, if (s.hit.set i true).all (fun h => h) = true
          then "Hit! You sank: " ++ s.name else "Hit!") ∧
      (b.shoot_at p).1 ≠ (false, "Miss.") ∧ (b.shoot_at p).2.cellAt p ≠ some Cell.MISS := by
  obtain ⟨l1, s, l2, j, h1, hj, hf, hn, hother, he⟩ :=
    shoot_at_ship_wf b p (built_wellFormed b hb) hs
  have hin := cellAt_some_in_bounds b p _ hs
  have hcell : (b.shoot_at p).2.cellAt p = some Cell.HIT := by
    rw [he]
    exact cellAt_setCell_self b p _ hin
  refine ⟨l1, s, l2, j, h1, hj, (List.getElem?_eq_some.mp hf).1, hother, ?_, hcell, ?_, ?_, ?_, ?_⟩
  · intro i' hi'
    exact List.getElem?_inj (List.getElem?_eq_some.mp hi').1 hn (by rw [hi', hj])
  · rw [he]; rfl
  · rw [he]; rfl
  · rw [he]; intro h; cases congrArg Prod.fst h
  · rw [hcell]; intro h; cases h

theorem shoot_at_hit_witness :
    ∃ l1 s l2 i, demo_board.ships = l1 ++ s :: l2 ∧ s.coords[i]? = some (⟨0, 1⟩ : Coord) ∧
      i < s.hit.length ∧
      (∀ s' ∈ l1 ++ l2, (⟨0, 1⟩ : Coord) ∉ s'.coords) ∧
      (∀ i', s.coords[i']? = some (⟨0, 1⟩ : Coord) → i' = i) ∧
      (demo_board.shoot_at ⟨0, 1⟩).2.cellAt ⟨0, 1⟩ = some Cell.HIT ∧
      (demo_board.shoot_at ⟨0, 1⟩).2.ships = l1 ++ { s with hit := s.hit.set i true } :: l2 ∧
      (demo_board.shoot_at ⟨0, 1⟩).1 =
        (true, if (s.hit.set i true).all (fun h => h) = true
          then "Hit! You sank: " ++ s.name else "Hit!") ∧
      (demo_board.shoot_at ⟨0, 1⟩).1 ≠ (false, "Miss.") ∧
      (demo_board.shoot_at ⟨0, 1⟩).2.cellAt ⟨0, 1⟩ ≠ some Cell.MISS :=
  shoot_at_hit demo_board ⟨0, 1⟩
    (Built.placed _ (Placed.place Board.fresh 0 0 Orientation.HORIZONTAL "Destroyer" 2 _
      Placed.fresh rfl))
    (by decide)

theorem demo_scenario :
    (demo_board.shoot_at ⟨0, 0⟩).1 = (true, "Hit!") ∧
    (demo_board.shoot_at ⟨0, 0⟩).2.all_sunk = false ∧
    ((demo_board.shoot_at ⟨0, 0⟩).2.shoot_at ⟨0, 1⟩).1 = (true, "Hit! You sank: Destroyer") ∧
    ((demo_board.shoot_at ⟨0, 0⟩).2.shoot_at ⟨0, 1⟩).2.all_sunk = true := by
  refine ⟨by decide, by decide, by decide, by decide⟩

theorem is_sunk_iff (s : Ship) : s.is_sunk = true ↔ ∀ i : Nat, s.hit[i]? ≠ some false := by
  unfold Ship.is_sunk
  rw [List.all_eq_true]
  constructor
  · intro h i hi
    have := h false (List.getElem?_mem hi)
    cases this
  · intro h x hx
    obtain ⟨i, hi⟩ := List.mem_iff_getElem?.mp hx
    cases x with
    | true => rfl
    | false => exact absurd hi (h i)

theorem is_sunk_mark (s : Ship) (j : Nat) (h : s.is_sunk = true) : (s.mark j).is_sunk = true := by
  rw [is_sunk_iff] at h ⊢
  intro i hi
  change (s.hit.set j true)[i]? = some false at hi
  rw [List.getElem?_set] at hi
  split at hi
  · split at hi <;> cases hi
  · exact h i hi

theorem getElem?_split (l1 l2 : List Ship) (s0 x : Ship) (k : Nat)
    (h : (l1 ++ s0 :: l2)[k]? = some x) :
    (k = l1.length ∧ x = s0) ∨
      (k ≠ l1.length ∧ x ∈ l1 ++ l2 ∧ ∀ y, (l1 ++ y :: l2)[k]? = some x) := by
  rcases Nat.lt_trichotomy k l1.length with hk | hk | hk
  · right
    rw [List.getElem?_append_left hk] at h
    exact ⟨by omega, List.mem_append_left _ (List.getElem?_mem h),
      fun y => by rw [List.getElem?_append_left hk]; exact h⟩
  · left
    rw [hk, List.getElem?_append_right (le_refl _), Nat.sub_self, List.getElem?_cons_zero] at h
    exact ⟨hk, (Option.some.inj h).symm⟩
  · right
    rw [List.getElem?_append_right (by omega)] at h
    obtain ⟨m, hm⟩ : ∃ m, k - l1.length = m + 1 := ⟨k - l1.length - 1, by omega⟩
    rw [hm, List.getElem?_cons_succ] at h
    refine ⟨by omega, List.mem_append_right _ (List.getElem?_mem h), fun y => ?_⟩
    rw [List.getElem?_append_right (by omega), hm, List.getElem?_cons_succ]
    exact h

theorem getElem?_split_self (l1 l2 : List Ship) (y : Ship) :
    (l1 ++ y :: l2)[l1.length]? = some y := by
  rw [List.getElem?_append_right (le_refl _), Nat.sub_self, List.getElem?_cons_zero]

/-- C7: on a board built by `place_ship` calls with constructed ships followed
by `shoot_at` calls, the ship at any position `k` of the ship list is still at
position `k` after `shoot_at(p)`; it is sunk afterwards without having been
sunk before exactly when `p` is one of its coordinates and the flag of that
coordinate was its only unset flag; and a ship that was sunk stays sunk. -/
theorem sunk_iff_last_flag (b : Board) (p : Coord) (k : Nat) (s : Ship) (hb : Built b)
    (hk : b.ships[k]? = some s) :
    ∃ s', (b.shoot_at p).2.ships[k]? = some s' ∧
      ((s'.is_sunk = true ∧ s.is_sunk = false) ↔
        ∃ i : Nat, s.coords[i]? = some p ∧ s.hit[i]? = some false ∧
          ∀ j : Nat, j ≠ i → s.hit[j]? ≠ some false) ∧
      (s.is_sunk = true → s'.is_sunk = true) := by
  have hwf := built_wellFormed b hb
  have hsame : (b.shoot_at p).2.ships = b.ships → b.cellAt p ≠ some Cell.SHIP →
      ∃ s', (b.shoot_at p).2.ships[k]? = some s' ∧
        ((s'.is_sunk = true ∧ s.is_sunk = false) ↔
          ∃ i : Nat, s.coords[i]? = some p ∧ s.hit[i]? = some false ∧
            ∀ j : Nat, j ≠ i → s.hit[j]? ≠ some false) ∧
        (s.is_sunk = true → s'.is_sunk = true) := by
    intro hships hcell
    refine ⟨s, by rw [hships]; exact hk, ?_, id⟩
    constructor
    · rintro ⟨h1, h2⟩; rw [h1] at h2; cases h2
    · rintro ⟨i, hi, hf, _⟩
      exact absurd ((hwf.ship_iff p).mpr ⟨s, List.getElem?_mem hk, i, hi, hf⟩) hcell
  rcases shoot_at_cases b p with ⟨hc, he⟩ | ⟨hc, he⟩ | ⟨hc, _, _, _⟩ | ⟨hc, hl, _⟩ | ⟨hc, he⟩
  · exact hsame (by rw [he]) (by rw [cellAt_of_not_in_bounds b p hc]; simp)
  · exact hsame (by rw [he]) (by rcases hc with h | h <;> rw [h] <;> simp)
  · obtain ⟨l1, s0, l2, j, h1, hj, hf, hn, hother, he⟩ := shoot_at_ship_wf b p hwf hc
    have hships : (b.shoot_at p).2.ships = l1 ++ s0.mark j :: l2 := by rw [he]
    rw [h1] at hk
    rcases getElem?_split l1 l2 s0 s k hk with ⟨hkl, hs⟩ | ⟨_, hmem, hy⟩
    · subst hs
      refine ⟨s.mark j, by rw [hships, hkl]; exact getElem?_split_self l1 l2 _, ?_,
        is_sunk_mark s j⟩
      constructor
      · rintro ⟨h1', _⟩
        refine ⟨j, hj, hf, fun m hm hfm => ?_⟩
        rw [is_sunk_iff] at h1'
        apply h1' m
        change (s.hit.set j true)[m]? = some false
        rw [List.getElem?_set_ne (Ne.symm hm)]
        exact hfm
      · rintro ⟨i, hi, _, hrest⟩
        have hij : i = j :=
          List.getElem?_inj (List.getElem?_eq_some.mp hi).1 hn (by rw [hi, hj])
        subst hij
        constructor
        · rw [is_sunk_iff]
          intro m hm
          change (s.hit.set i true)[m]? = some false at hm
          by_cases hmi : m = i
          · rw [hmi, List.getElem?_set_self (List.getElem?_eq_some.mp hf).1] at hm
            cases hm
          · rw [List.getElem?_set_ne (Ne.symm hmi)] at hm
            exact hrest m hmi hm
        · cases hsk : s.is_sunk with
          | false => rfl
          | true => exact absurd hf ((is_sunk_iff s).mp hsk i)
    · refine ⟨s, by rw [hships]; exact hy _, ?_, id⟩
      constructor
      · rintro ⟨h1', h2'⟩; rw [h1'] at h2'; cases h2'
      · rintro ⟨i, hi, _, _⟩
        exact absurd (List.getElem?_mem hi) (hother s hmem)
  · exfalso
    obtain ⟨s0, hs0, hflag⟩ := (hwf.ship_iff p).mp hc
    exact (shoot_loop_none p b.ships).mp hl s0 hs0 (flag_mem s0 p false hflag)
  · exact hsame (by rw [he]; rfl) (by rw [hc]; simp)

theorem demo_board_built : Built demo_board :=
  Built.placed _ (Placed.place Board.fresh 0 0 Orientation.HORIZONTAL "Destroyer" 2 _
    Placed.fresh rfl)

theorem demo_hit_built : Built demo_hit :=
  Built.shoot demo_board ⟨0, 0⟩ demo_board_built

theorem sunk_iff_last_flag_witness :
    ∃ s', (demo_hit.shoot_at ⟨0, 1⟩).2.ships[0]? = some s' ∧
      ((s'.is_sunk = true ∧
          (⟨"Destroyer", 2, [⟨0, 0⟩, ⟨0, 1⟩], [true, false]⟩ : Ship).is_sunk = false) ↔
        ∃ i : Nat, (⟨"Destroyer", 2, [⟨0, 0⟩, ⟨0, 1⟩], [true, false]⟩ : Ship).coords[i]? =
            some (⟨0, 1⟩ : Coord) ∧
          (⟨"Destroyer", 2, [⟨0, 0⟩, ⟨0, 1⟩], [true, false]⟩ : Ship).hit[i]? = some false ∧
          ∀ j : Nat, j ≠ i →
            (⟨"Destroyer", 2, [⟨0, 0⟩, ⟨0, 1⟩], [true, false]⟩ : Ship).hit[j]? ≠ some false) ∧
      ((⟨"Destroyer", 2, [⟨0, 0⟩, ⟨0, 1⟩], [true, false]⟩ : Ship).is_sunk = true →
        s'.is_sunk = true) :=
  sunk_iff_last_flag demo_hit ⟨0, 1⟩ 0 ⟨"Destroyer", 2, [⟨0, 0⟩, ⟨0, 1⟩], [true, false]⟩
    demo_hit_built (by decide)

/-! ## Ship cells and ship coordinates -/

theorem placed_reachable (b : Board) (h : Placed b) : Reachable b := by
  induction h with
  | fresh => exact Reachable.fresh
  | place b r c o n l s _ hc ih => exact Reachable.place b r c o n l s ih hc

theorem built_reachable (b : Board) (h : Built b) : Reachable b := by
  induction h with
  | placed b hb => exact placed_reachable b hb
  | shoot b p _ ih => exact Reachable.shoot b p ih

theorem reachable_cover (b : Board) (h : Reachable b) :
    ∀ p, (b.cellAt p = some Cell.SHIP ∨ b.cellAt p = some Cell.HIT) ↔ p ∈ b.all_coords := by
  induction h with
  | fresh =>
    intro p
    constructor
    · rintro (h | h) <;>
      · unfold Board.cellAt Board.fresh at h
        split at h <;> simp at h
    · intro h; cases h
  | place b r c o n l s _ hc ih =>
    intro p
    obtain ⟨hl, hs⟩ := construct_eq n l s hc
    subst hs
    by_cases hcp : b.can_place r c o l = true
    · obtain ⟨_, hships, hcell⟩ := place_ship_success b r c o
        ⟨n, l, [], List.replicate l.toNat false⟩ hcp
      simp only at hships hcell
      have hall : (b.place_ship r c o ⟨n, l, [], List.replicate l.toNat false⟩).2.all_coords =
          b.all_coords ++ Board.targets r c o 0 l.toNat := by
        unfold Board.all_coords
        rw [hships, List.flatMap_append]
        simp
      rw [hall, hcell, List.mem_append, ← ih p]
      by_cases hq : p ∈ Board.targets r c o 0 l.toNat
      · rw [if_pos hq]; simp [hq]
      · rw [if_neg hq]; simp [hq]
    · have hcp' : b.can_place r c o l = false := by simpa using hcp
      rw [place_ship_failure b r c o _ hcp']
      exact ih p
  | shoot b p _ ih =>
    intro q
    rcases shoot_at_cases b p with ⟨_, he⟩ | ⟨_, he⟩ | ⟨hc, res, hl, he⟩ | ⟨hc, hl, _⟩ | ⟨hc, he⟩
    · rw [he]; exact ih q
    · rw [he]; exact ih q
    · obtain ⟨l1, s, l2, j, h1, _, _, h4⟩ := shoot_loop_some p b.ships res hl
      have hb := cellAt_some_in_bounds b p _ hc
      have hall : (b.shoot_at p).2.all_coords = b.all_coords := by
        rw [he]
        unfold Board.all_coords
        rw [h1, h4]
        simp [Ship.mark]
      have hcell : (b.shoot_at p).2.cellAt q = (b.setCell p Cell.HIT).cellAt q := by
        rw [he]; rfl
      rw [hall, hcell, ← ih q]
      by_cases hq : q = p
      · rw [hq, cellAt_setCell_self b p _ hb, hc]; simp
      · rw [cellAt_setCell_ne b p q _ hq]
    · exfalso
      obtain ⟨s0, hs0, hp0⟩ := List.mem_flatMap.mp ((ih p).mp (Or.inl hc))
      exact (shoot_loop_none p b.ships).mp hl s0 hs0 hp0
    · have hb := cellAt_some_in_bounds b p _ hc
      rw [he]
      show ((b.setCell p Cell.MISS).cellAt q = _ ∨ (b.setCell p Cell.MISS).cellAt q = _) ↔
        q ∈ b.all_coords
      rw [← ih q]
      by_cases hq : q = p
      · rw [hq, cellAt_setCell_self b p _ hb, hc]; simp
      · rw [cellAt_setCell_ne b p q _ hq]

/-- C8 as stated fails.  After one hit on the scenario board the cell at
row 0, column 0 is a ship coordinate that is no longer marked SHIP; and a ship
placed afterwards across that cell shares the coordinate with the first
ship. -/
theorem hit_then_overlap_counterexample :
    Reachable demo_hit ∧ (⟨0, 0⟩ : Coord) ∈ demo_hit.all_coords ∧
      demo_hit.cellAt ⟨0, 0⟩ ≠ some Cell.SHIP ∧
    Reachable overlap_board ∧ ¬ overlap_board.all_coords.Nodup := by
  refine ⟨built_reachable _ demo_hit_built, by decide, by decide, ?_, by decide⟩
  exact Reachable.place demo_hit 0 0 Orientation.VERTICAL "Patrol" 2 _
    (built_reachable _ demo_hit_built) rfl

/-- C8, amended: on every board reached from the empty board by `place_ship`
calls with constructed ships and `shoot_at` calls in any order, the cells
marked SHIP or HIT are exactly the coordinates listed by the ships; and when
all `place_ship` calls come before all `shoot_at` calls, no coordinate is
listed by two ships or twice by one ship. -/
theorem ship_cells_cover (b : Board) :
    (Reachable b →
      ∀ p, (b.cellAt p = some Cell.SHIP ∨ b.cellAt p = some Cell.HIT) ↔ p ∈ b.all_coords) ∧
    (Built b → b.all_coords.Nodup) :=
  ⟨reachable_cover b, fun h => (built_wellFormed b h).nodup⟩

theorem ship_cells_cover_witness :
    (∀ p, (overlap_board.cellAt p = some Cell.SHIP ∨ overlap_board.cellAt p = some Cell.HIT) ↔
      p ∈ overlap_board.all_coords) ∧
    demo_hit.all_coords.Nodup :=
  ⟨(ship_cells_cover overlap_board).1
      (Reachable.place demo_hit 0 0 Orientation.VERTICAL "Patrol" 2 _
        (built_reachable _ demo_hit_built) rfl),
    (ship_cells_cover demo_hit).2 demo_hit_built⟩

/-! ## Instances on the scenario board -/

theorem shoot_at_repeat_witness :
    Board.in_bounds ⟨0, 0⟩ = true ∧
    (demo_board.shoot_at ⟨0, 0⟩).2.shoot_at ⟨0, 0⟩ =
      ((false, "Already shot here."), (demo_board.shoot_at ⟨0, 0⟩).2) ∧
    (demo_hit.cellAt ⟨0, 0⟩ = some Cell.HIT ∨ demo_hit.cellAt ⟨0, 0⟩ = some Cell.MISS) ∧
    demo_hit.shoot_at ⟨0, 0⟩ = ((false, "Already shot here."), demo_hit) :=
  ⟨by decide, (shoot_at_repeat demo_board ⟨0, 0⟩).1 (by decide), by decide,
    (shoot_at_repeat demo_hit ⟨0, 0⟩).2 (by decide)⟩

theorem run_shot_turn_witness :
    (∃ st', Game.run_shot demo_state ⟨0, 0⟩ = Step.again st' ∧
      st'.cur = demo_state.cur ∧ st'.opp = demo_state.opp) ∧
    (∃ st', Game.run_shot demo_state ⟨5, 5⟩ = Step.again st' ∧
      st'.cur = demo_state.opp ∧ st'.opp = demo_state.cur) :=
  ⟨(run_shot_turn demo_state ⟨0, 0⟩ ⟨by decide, by decide⟩).1 (by decide) (by decide),
    (run_shot_turn demo_state ⟨5, 5⟩ ⟨by decide, by decide⟩).2 (by decide)⟩

theorem run_shot_fresh (st : RunState) (p : Coord) (hne : st.cur ≠ st.opp)
    (hnew : ¬ ((st.player st.opp).board.cellAt p = some Cell.HIT ∨
      (st.player st.opp).board.cellAt p = some Cell.MISS)) :
    ∃ st', (Game.run_shot st p = Step.again st' ∨ Game.run_shot st p = Step.wins st.cur st') ∧
      st'.cur ≠ st'.opp ∧
      (st'.player st.cur).shots_taken = (st.player st.cur).shots_taken + 1 ∧
      (st'.player st.opp).shots_taken = (st.player st.opp).shots_taken ∧
      (st'.player st.cur).board = (st.player st.cur).board ∧
      (st'.player st.opp).board = ((st.player st.opp).board.shoot_at p).2 := by
  have hmsg : ((st.player st.opp).board.shoot_at p).1.2 ≠ "Already shot here." :=
    fun hm => hnew ((shoot_at_message_already _ p).mp hm)
  unfold Game.run_shot
  simp only
  rw [if_neg hmsg]
  obtain ⟨p1, p2, cur, opp⟩ := st
  cases cur <;> cases opp
  · exact absurd rfl hne
  · by_cases hh : (p2.board.shoot_at p).1.1 = true
    · by_cases hs : (p2.board.shoot_at p).2.all_sunk = true
      · simp [RunState.update, RunState.player, hh, hs]
      · simp [RunState.update, RunState.player, hh, hs]
    · simp [RunState.update, RunState.player, hh]
  · by_cases hh : (p1.board.shoot_at p).1.1 = true
    · by_cases hs : (p1.board.shoot_at p).2.all_sunk = true
      · simp [RunState.update, RunState.player, hh, hs]
      · simp [RunState.update, RunState.player, hh, hs]
    · simp [RunState.update, RunState.player, hh]
  · exact absurd rfl hne

theorem run_shots_counts (ps : List Coord) :
    ∀ (st : RunState), st.cur ≠ st.opp → ∀ (w : Who) (st' : RunState),
      (Game.run_shots st ps = Step.again st' ∨ ∃ w', Game.run_shots st ps = Step.wins w' st') →
      (st'.player w).shots_taken = (st.player w).shots_taken + (Game.first_shots w st ps : Int) := by
  induction ps with
  | nil =>
    intro st _ w st' h
    have hst : st' = st := by
      rcases h with h | ⟨w', h⟩
      · simp only [Game.run_shots, Step.again.injEq] at h; exact h.symm
      · simp only [Game.run_shots, reduceCtorEq] at h
    rw [hst]
    simp [Game.first_shots]
  | cons p ps ih =>
    intro st hne w st' h
    by_cases hold : (st.player st.opp).board.cellAt p = some Cell.HIT ∨
        (st.player st.opp).board.cellAt p = some Cell.MISS
    · have hrun := run_shot_already st p hold
      rw [Game.run_shots, hrun] at h
      rw [Game.first_shots, hrun, if_neg (fun hc => hc.2 hold)]
      simpa using ih st hne w st' h
    · obtain ⟨st1, hrun, hne1, hcur, hopp, _, _⟩ := run_shot_fresh st p hne hold
      have hw : (st1.player w).shots_taken =
          (st.player w).shots_taken + ((if st.cur = w ∧ ¬ ((st.player st.opp).board.cellAt p =
            some Cell.HIT ∨ (st.player st.opp).board.cellAt p = some Cell.MISS)
            then 1 else 0 : Nat) : Int) := by
        by_cases hwc : st.cur = w
        · rw [if_pos ⟨hwc, hold⟩, ← hwc, hcur]; rfl
        · rw [if_neg (fun hc => hwc hc.1)]
          have hwo : w = st.opp := by
            cases hc : st.cur <;> cases ho : st.opp <;> cases w <;> simp_all
          rw [hwo, hopp]; simp
      rcases hrun with hrun | hrun
      · rw [Game.run_shots, hrun] at h
        rw [Game.first_shots, hrun, ih st1 hne1 w st' h, hw]
        push_cast
        ring
      · rw [Game.run_shots, hrun] at h
        have hst : st' = st1 := by
          rcases h with h | ⟨w', h⟩
          · simp only [reduceCtorEq] at h
          · simp only [Step.wins.injEq] at h; exact h.2.symm
        rw [Game.first_shots, hrun, hst, hw]
        simp

/-- C11: in one iteration of `Game::run` on an accepted coordinate `p` (with
`cur` and `opp` pointing to the two different players, as they always do in
`run`): when the cell of `p` on the opponent's board is already HIT or MISS the
whole state (both boards, both counters, `cur` and `opp`) is unchanged;
otherwise the current player's `shots_taken` grows by exactly 1 and the
opponent's is unchanged.  Over any run of the loop each player's `shots_taken`
is its value at the start plus the number of first-time shots that player
fired, so it never decreases. -/
theorem run_shot_counters (st : RunState) (p : Coord) (hne : st.cur ≠ st.opp) :
    (((st.player st.opp).board.cellAt p = some Cell.HIT ∨
        (st.player st.opp).board.cellAt p = some Cell.MISS) →
      Game.run_shot st p = Step.again st) ∧
    (¬ ((st.player st.opp).board.cellAt p = some Cell.HIT ∨
        (st.player st.opp).board.cellAt p = some Cell.MISS) →
      ∃ st', (Game.run_shot st p = Step.again st' ∨ Game.run_shot st p = Step.wins st.cur st') ∧
        (st'.player st.cur).shots_taken = (st.player st.cur).shots_taken + 1 ∧
        (st'.player st.opp).shots_taken = (st.player st.opp).shots_taken) ∧
    (∀ (ps : List Coord) (w : Who) (st' : RunState),
      (Game.run_shots st ps = Step.again st' ∨ ∃ w', Game.run_shots st ps = Step.wins w' st') →
      (st'.player w).shots_taken =
          (st.player w).shots_taken + (Game.first_shots w st ps : Int) ∧
        (st.player w).shots_taken ≤ (st'.player w).shots_taken) := by
  refine ⟨run_shot_already st p, ?_, ?_⟩
  · intro hnew
    obtain ⟨st', h1, _, h2, h3, _, _⟩ := run_shot_fresh st p hne hnew
    exact ⟨st', h1, h2, h3⟩
  · intro ps w st' h
    have := run_shots_counts ps st hne w st' h
    exact ⟨this, by omega⟩

theorem run_shot_counters_witness :
    demo_state.cur ≠ demo_state.opp ∧
    (∃ st', (Game.run_shot demo_state ⟨5, 5⟩ = Step.again st' ∨
        Game.run_shot demo_state ⟨5, 5⟩ = Step.wins demo_state.cur st') ∧
      (st'.player demo_state.cur).shots_taken = (demo_state.player demo_state.cur).shots_taken + 1 ∧
      (st'.player demo_state.opp).shots_taken = (demo_state.player demo_state.opp).shots_taken) ∧
    Game.run_shot demo_last_state ⟨0, 0⟩ = Step.again demo_last_state :=
  ⟨by decide,
    (run_shot_counters demo_state ⟨5, 5⟩ (by decide)).2.1 (by decide),
    (run_shot_counters demo_last_state ⟨0, 0⟩ (by decide)).1 (by decide)⟩

/-! ## Shot cells are final under shots -/

theorem shoot_at_cell_ne (b : Board) (p q : Coord) (h : q ≠ p) :
    (b.shoot_at p).2.cellAt q = b.cellAt q := by
  rcases shoot_at_cases b p with ⟨_, he⟩ | ⟨_, he⟩ | ⟨_, res, _, he⟩ | ⟨_, _, he⟩ | ⟨_, he⟩
  · rw [he]
  · rw [he]
  · rw [he]
    exact cellAt_setCell_ne b p q _ h
  · rw [he]
    show ((b.setCell p Cell.HIT).setCell p Cell.MISS).cellAt q = _
    rw [cellAt_setCell_ne _ p q _ h, cellAt_setCell_ne b p q _ h]
  · rw [he]
    exact cellAt_setCell_ne b p q _ h

theorem shoot_at_keeps_shot (b : Board) (p q : Coord) (v : Cell)
    (hv : v = Cell.HIT ∨ v = Cell.MISS) (hq : b.cellAt q = some v) :
    (b.shoot_at p).2.cellAt q = some v := by
  by_cases hqp : q = p
  · subst hqp
    have hold : b.cellAt q = some Cell.HIT ∨ b.cellAt q = some Cell.MISS := by
      rcases hv with h | h <;> rw [h] at hq
      · exact Or.inl hq
      · exact Or.inr hq
    rw [shoot_at_already b q hold]
    exact hq
  · rw [shoot_at_cell_ne b p q hqp]
    exact hq

theorem place_ship_false_board (b : Board) (r c : Int) (o : Orientation) (s : Ship)
    (h : (b.place_ship r c o s).1 = false) : (b.place_ship r c o s).2 = b := by
  by_cases hcp : b.can_place r c o s.length = true
  · rw [(place_ship_success b r c o s hcp).1] at h
    cases h
  · have hcp' : b.can_place r c o s.length = false := by simpa using hcp
    rw [place_ship_failure b r c o s hcp']

theorem placed_cells (b : Board) (h : Placed b) (q : Coord) :
    b.cellAt q ≠ some Cell.HIT ∧ b.cellAt q ≠ some Cell.MISS := by
  induction h with
  | fresh =>
    unfold Board.cellAt Board.fresh
    split <;> simp
  | place b r c o n l s _ _ ih =>
    by_cases hcp : b.can_place r c o s.length = true
    · obtain ⟨_, _, hcell⟩ := place_ship_success b r c o s hcp
      rw [hcell q]
      by_cases hq : q ∈ Board.targets r c o 0 s.length.toNat
      · rw [if_pos hq]; simp
      · rw [if_neg hq]; exact ih
    · have hcp' : b.can_place r c o s.length = false := by simpa using hcp
      rw [place_ship_failure b r c o s hcp']
      exact ih

/-- C12 as stated fails for `place_ship`: on the scenario board after the hit
at row 0, column 0, placing a ship of length 2 vertically at that cell is
accepted and turns the HIT cell back into SHIP. -/
theorem place_over_hit_counterexample :
    demo_hit.cellAt ⟨0, 0⟩ = some Cell.HIT ∧
    (demo_hit.place_ship 0 0 Orientation.VERTICAL
        ⟨"Patrol", 2, [], List.replicate 2 false⟩).1 = true ∧
    (demo_hit.place_ship 0 0 Orientation.VERTICAL
        ⟨"Patrol", 2, [], List.replicate 2 false⟩).2.cellAt ⟨0, 0⟩ = some Cell.SHIP := by
  refine ⟨by decide, by decide, by decide⟩

/-- C12, amended: a cell that is HIT (or MISS) before a `shoot_at` call with any
target is HIT (or MISS) after it, on every board; a `place_ship` call leaves
every HIT or MISS cell that is not one of the cells the ship is placed on as it
is, hence all of them when it returns false; and a board that only
`place_ship` calls with constructed ships have touched has no HIT or MISS
cell. -/
theorem shot_cells_stay (b : Board) (q : Coord) (v : Cell)
    (hv : v = Cell.HIT ∨ v = Cell.MISS) (hq : b.cellAt q = some v) :
    (∀ p, (b.shoot_at p).2.cellAt q = some v) ∧
    (∀ r c o s, q ∉ Board.targets r c o 0 s.length.toNat →
      (b.place_ship r c o s).2.cellAt q = some v) ∧
    (∀ r c o s, (b.place_ship r c o s).1 = false →
      (b.place_ship r c o s).2.cellAt q = some v) ∧
    ¬ Placed b := by
  refine ⟨fun p => shoot_at_keeps_shot b p q v hv hq, ?_, ?_, ?_⟩
  · intro r c o s hT
    by_cases hcp : b.can_place r c o s.length = true
    · rw [(place_ship_success b r c o s hcp).2.2 q, if_neg hT]
      exact hq
    · have hcp' : b.can_place r c o s.length = false := by simpa using hcp
      rw [place_ship_failure b r c o s hcp']
      exact hq
  · intro r c o s hf
    rw [place_ship_false_board b r c o s hf]
    exact hq
  · intro hp
    have := placed_cells b hp q
    rcases hv with h | h <;> rw [h] at hq
    · exact this.1 hq
    · exact this.2 hq

theorem shot_cells_stay_witness :
    (∀ p, (demo_hit.shoot_at p).2.cellAt ⟨0, 0⟩ = some Cell.HIT) ∧
    (demo_hit.place_ship 0 1 Orientation.VERTICAL
        ⟨"Patrol", 2, [], List.replicate 2 false⟩).2.cellAt ⟨0, 0⟩ = some Cell.HIT ∧
    (demo_hit.place_ship 0 9 Orientation.HORIZONTAL
        ⟨"Patrol", 2, [], List.replicate 2 false⟩).2.cellAt ⟨0, 0⟩ = some Cell.HIT :=
  ⟨(shot_cells_stay demo_hit ⟨0, 0⟩ Cell.HIT (Or.inl rfl) (by decide)).1,
    (shot_cells_stay demo_hit ⟨0, 0⟩ Cell.HIT (Or.inl rfl) (by decide)).2.1
      0 1 Orientation.VERTICAL ⟨"Patrol", 2, [], List.replicate 2 false⟩ (by decide),
    (shot_cells_stay demo_hit ⟨0, 0⟩ Cell.HIT (Or.inl rfl) (by decide)).2.2.1
      0 9 Orientation.HORIZONTAL ⟨"Patrol", 2, [], List.replicate 2 false⟩ (by decide)⟩

/-! ## Effect of a successful placement -/

theorem targets_eq_map (r c : Int) (o : Orientation) (n : Nat) :
    ∀ i : Nat, Board.targets r c o i n =
      (List.range n).map (fun k => Board.target r c o (i + k)) := by
  induction n with
  | zero => intro i; rfl
  | succ n ih =>
    intro i
    rw [Board.targets, ih (i + 1), List.range_succ_eq_map, List.map_cons, List.map_map]
    congr 1
    apply List.map_congr_left
    intro k _
    show Board.target r c o (i + 1 + k) = Board.target r c o (i + (k + 1))
    rw [show i + 1 + k = i + (k + 1) by omega]

theorem targets_zero_eq (r c : Int) (o : Orientation) (n : Nat) :
    Board.targets r c o 0 n =
      (List.range n).map (fun k : Nat =>
        if o = Orientation.VERTICAL then (⟨r + k, c⟩ : Coord) else ⟨r, c + k⟩) := by
  rw [targets_eq_map]
  apply List.map_congr_left
  intro k _
  rw [Nat.zero_add]
  cases o <;> simp [Board.target]

/-- C13 as stated fails on a board with shot cells: `can_place` accepts the
vertical length-2 placement at row 0, column 0 of the scenario board after its
first hit, and the cell at row 0, column 0 changes from HIT, not from EMPTY, to
SHIP. -/
theorem place_changes_hit_counterexample :
    Ship.construct "Patrol" 2 = some ⟨"Patrol", 2, [], List.replicate 2 false⟩ ∧
    demo_hit.can_place 0 0 Orientation.VERTICAL 2 = true ∧
    demo_hit.cellAt ⟨0, 0⟩ = some Cell.HIT ∧
    (demo_hit.place_ship 0 0 Orientation.VERTICAL
        ⟨"Patrol", 2, [], List.replicate 2 false⟩).2.cellAt ⟨0, 0⟩ = some Cell.SHIP := by
  refine ⟨rfl, by decide, by decide, by decide⟩

/-- C13, amended: for a ship constructed as `Ship(n, l)` and an origin and
orientation that `can_place` accepts, `place_ship` returns true; the cells that
change are exactly the `l` distinct target cells, taken in order from the
origin; each of them was not SHIP and becomes SHIP, and it was EMPTY unless it
had been shot before, so always on a board that only `place_ship` calls have
touched; every other cell is unchanged; and the ship list grows by one ship at
its end, whose coordinate list is the list of target cells and whose `l` hit
flags are all false. -/
theorem place_ship_effect (b : Board) (r c : Int) (o : Orientation) (n : String) (l : Int)
    (s : Ship) (hc : Ship.construct n l = some s) (hcp : b.can_place r c o l = true) :
    (b.place_ship r c o s).1 = true ∧
    ∃ T : List Coord,
      T = (List.range l.toNat).map (fun k : Nat =>
        if o = Orientation.VERTICAL then (⟨r + k, c⟩ : Coord) else ⟨r, c + k⟩) ∧
      (T.length : Int) = l ∧ T.Nodup ∧
      (∀ q, (b.place_ship r c o s).2.cellAt q ≠ b.cellAt q ↔ q ∈ T) ∧
      (∀ q ∈ T, b.cellAt q ≠ some Cell.SHIP ∧
        (b.place_ship r c o s).2.cellAt q = some Cell.SHIP ∧
        (b.cellAt q ≠ some Cell.HIT → b.cellAt q ≠ some Cell.MISS →
          b.cellAt q = some Cell.EMPTY) ∧
        (Placed b → b.cellAt q = some Cell.EMPTY)) ∧
      (b.place_ship r c o s).2.ships = b.ships ++ [⟨n, l, T, List.replicate l.toNat false⟩] := by
  obtain ⟨hl, hs⟩ := construct_eq n l s hc
  subst hs
  obtain ⟨h1, hships, hcell⟩ := place_ship_success b r c o
    ⟨n, l, [], List.replicate l.toNat false⟩ hcp
  simp only [List.nil_append] at hships hcell
  have hT := (can_place_iff_targets b r c o l).mp hcp
  have hempty : ∀ q ∈ Board.targets r c o 0 l.toNat,
      b.cellAt q ≠ some Cell.HIT → b.cellAt q ≠ some Cell.MISS → b.cellAt q = some Cell.EMPTY := by
    intro q hq h2 h3
    rcases cellAt_cases b q (hT q hq).1 with h | h | h | h
    · exact h
    · exact absurd h (hT q hq).2
    · exact absurd h h2
    · exact absurd h h3
  refine ⟨h1, Board.targets r c o 0 l.toNat, targets_zero_eq r c o _, ?_, nodup_targets r c o _ 0,
    ?_, ?_, hships⟩
  · rw [length_targets]; omega
  · intro q
    rw [hcell q]
    by_cases hq : q ∈ Board.targets r c o 0 l.toNat
    · rw [if_pos hq]
      exact ⟨fun _ => hq, fun _ h => (hT q hq).2 h.symm⟩
    · rw [if_neg hq]
      exact ⟨fun h => absurd rfl h, fun h => absurd h hq⟩
  · intro q hq
    refine ⟨(hT q hq).2, by rw [hcell q, if_pos hq], hempty q hq, fun hp => ?_⟩
    exact hempty q hq (placed_cells b hp q).1 (placed_cells b hp q).2

theorem place_ship_effect_witness :
    (Board.fresh.place_ship 0 0 Orientation.HORIZONTAL
        ⟨"Destroyer", 2, [], List.replicate 2 false⟩).1 = true ∧
    ∃ T : List Coord,
      T = (List.range (2 : Int).toNat).map (fun k : Nat =>
        if Orientation.HORIZONTAL = Orientation.VERTICAL then (⟨0 + k, 0⟩ : Coord)
        else ⟨0, 0 + k⟩) ∧
      (T.length : Int) = 2 ∧ T.Nodup ∧
      (∀ q, (Board.fresh.place_ship 0 0 Orientation.HORIZONTAL
          ⟨"Destroyer", 2, [], List.replicate 2 false⟩).2.cellAt q ≠ Board.fresh.cellAt q ↔
        q ∈ T) ∧
      (∀ q ∈ T, Board.fresh.cellAt q ≠ some Cell.SHIP ∧
        (Board.fresh.place_ship 0 0 Orientation.HORIZONTAL
          ⟨"Destroyer", 2, [], List.replicate 2 false⟩).2.cellAt q = some Cell.SHIP ∧
        (Board.fresh.cellAt q ≠ some Cell.HIT → Board.fresh.cellAt q ≠ some Cell.MISS →
          Board.fresh.cellAt q = some Cell.EMPTY) ∧
        (Placed Board.fresh → Board.fresh.cellAt q = some Cell.EMPTY)) ∧
      (Board.fresh.place_ship 0 0 Orientation.HORIZONTAL
          ⟨"Destroyer", 2, [], List.replicate 2 false⟩).2.ships =
        Board.fresh.ships ++ [⟨"Destroyer", 2, T, List.replicate (2 : Int).toNat false⟩] :=
  place_ship_effect Board.fresh 0 0 Orientation.HORIZONTAL "Destroyer" 2 _ rfl (by decide)

/-! ## Misses, shots outside the board, and the frame of a shot -/

/-- C14: a shot at an in-bounds cell that is EMPTY returns `(false, "Miss.")`,
sets that cell to MISS and no other cell, and leaves the ship list with all hit
flags, and so the value of `all_sunk()`, as they were. -/
theorem shoot_at_miss (b : Board) (p : Coord) (hin : Board.in_bounds p = true)
    (h : b.cellAt p = some Cell.EMPTY) :
    (b.shoot_at p).1 = (false, "Miss.") ∧
    (b.shoot_at p).2.cellAt p = some Cell.MISS ∧
    (∀ q, q ≠ p → (b.shoot_at p).2.cellAt q = b.cellAt q) ∧
    (b.shoot_at p).2.ships = b.ships ∧
    (b.shoot_at p).2.all_sunk = b.all_sunk := by
  rw [shoot_at_empty b p h]
  exact ⟨rfl, cellAt_setCell_self b p _ hin, fun q hq => cellAt_setCell_ne b p q _ hq, rfl, rfl⟩

theorem shoot_at_miss_witness :
    Board.in_bounds ⟨5, 5⟩ = true ∧ demo_board.cellAt ⟨5, 5⟩ = some Cell.EMPTY ∧
    (demo_board.shoot_at ⟨5, 5⟩).1 = (false, "Miss.") ∧
    (demo_board.shoot_at ⟨5, 5⟩).2.cellAt ⟨5, 5⟩ = some Cell.MISS ∧
    (∀ q, q ≠ (⟨5, 5⟩ : Coord) → (demo_board.shoot_at ⟨5, 5⟩).2.cellAt q = demo_board.cellAt q) ∧
    (demo_board.shoot_at ⟨5, 5⟩).2.ships = demo_board.ships ∧
    (demo_board.shoot_at ⟨5, 5⟩).2.all_sunk = demo_board.all_sunk :=
  ⟨by decide, by decide, shoot_at_miss demo_board ⟨5, 5⟩ (by decide) (by decide)⟩

/-- C15: a shot at a target whose row or column is outside `0..9` returns
`(false, "Shot outside board.")`, accesses no grid cell, and leaves the board
(grid and ships) as it was. -/
theorem shoot_at_out_of_bounds (b : Board) (p : Coord)
    (h : p.r < 0 ∨ 9 < p.r ∨ p.c < 0 ∨ 9 < p.c) :
    b.shoot_at p = ((false, "Shot outside board."), b) ∧ Board.shoot_at_reads p = [] := by
  have hb : Board.in_bounds p = false := by
    rw [in_bounds_eq_false_iff]; omega
  exact ⟨shoot_at_outside b p hb, by unfold Board.shoot_at_reads; rw [if_pos hb]⟩

theorem shoot_at_out_of_bounds_witness :
    (demo_board.shoot_at ⟨-1, 0⟩ = ((false, "Shot outside board."), demo_board) ∧
      Board.shoot_at_reads ⟨-1, 0⟩ = []) ∧
    (demo_board.shoot_at ⟨10, 0⟩ = ((false, "Shot outside board."), demo_board) ∧
      Board.shoot_at_reads ⟨10, 0⟩ = []) :=
  ⟨shoot_at_out_of_bounds demo_board ⟨-1, 0⟩ (by decide),
    shoot_at_out_of_bounds demo_board ⟨10, 0⟩ (by decide)⟩

theorem shoot_at_reads_in_bounds (p q : Coord) (h : q ∈ Board.shoot_at_reads p) :
    q = p ∧ Board.in_bounds q = true := by
  unfold Board.shoot_at_reads at h
  split at h
  · cases h
  · rename_i hb
    rw [List.mem_singleton.mp h]
    exact ⟨rfl, by simpa using hb⟩

/-- C16: on a board built by `place_ship` calls with constructed ships followed
by `shoot_at` calls, `shoot_at(p)` leaves every cell other than `p` unchanged
and keeps the number, order, names, lengths and coordinate lists of the ships;
either the ship list is unchanged or exactly one hit flag of one ship goes from
false to true; when `p` is out of bounds or its cell is already HIT or MISS the
board is unchanged, and otherwise the cell at `p` changes. -/
theorem shoot_at_frame (b : Board) (p : Coord) (hb : Built b) :
    (∀ q, q ≠ p → (b.shoot_at p).2.cellAt q = b.cellAt q) ∧
    (b.shoot_at p).2.ships.map (fun s => (s.name, s.length, s.coords)) =
      b.ships.map (fun s => (s.name, s.length, s.coords)) ∧
    ((b.shoot_at p).2.ships = b.ships ∨
      ∃ l1 s l2 i, b.ships = l1 ++ s :: l2 ∧ s.hit[i]? = some false ∧
        (b.shoot_at p).2.ships = l1 ++ { s with hit := s.hit.set i true } :: l2) ∧
    ((Board.in_bounds p = false ∨ b.cellAt p = some Cell.HIT ∨ b.cellAt p = some Cell.MISS) →
      (b.shoot_at p).2 = b) ∧
    (¬ (Board.in_bounds p = false ∨ b.cellAt p = some Cell.HIT ∨ b.cellAt p = some Cell.MISS) →
      (b.shoot_at p).2.cellAt p ≠ b.cellAt p) := by
  have hwf := built_wellFormed b hb
  refine ⟨fun q hq => shoot_at_cell_ne b p q hq, ?_⟩
  rcases shoot_at_cases b p with ⟨hc, he⟩ | ⟨hc, he⟩ | ⟨hc, _, _, _⟩ | ⟨hc, hl, _⟩ | ⟨hc, he⟩
  · rw [he]
    exact ⟨rfl, Or.inl rfl, fun _ => rfl, fun h => absurd (Or.inl hc) h⟩
  · rw [he]
    exact ⟨rfl, Or.inl rfl, fun _ => rfl, fun h => absurd (Or.inr hc) h⟩
  · obtain ⟨l1, s, l2, j, h1, hj, hf, _, _, he⟩ := shoot_at_ship_wf b p hwf hc
    have hin := cellAt_some_in_bounds b p _ hc
    rw [he]
    refine ⟨?_, Or.inr ⟨l1, s, l2, j, h1, hf, rfl⟩, ?_, ?_⟩
    · show (l1 ++ s.mark j :: l2).map _ = _
      rw [h1]
      simp [Ship.mark]
    · rintro (h | h | h)
      · rw [hin] at h; cases h
      · rw [hc] at h; cases h
      · rw [hc] at h; cases h
    · intro _
      show (b.setCell p Cell.HIT).cellAt p ≠ _
      rw [cellAt_setCell_self b p _ hin, hc]
      simp
  · exfalso
    obtain ⟨s0, hs0, hflag⟩ := (hwf.ship_iff p).mp hc
    exact (shoot_loop_none p b.ships).mp hl s0 hs0 (flag_mem s0 p false hflag)
  · have hin := cellAt_some_in_bounds b p _ hc
    rw [he]
    refine ⟨rfl, Or.inl rfl, ?_, ?_⟩
    · rintro (h | h | h)
      · rw [hin] at h; cases h
      · rw [hc] at h; cases h
      · rw [hc] at h; cases h
    · intro _
      rw [cellAt_setCell_self b p _ hin, hc]
      simp

theorem shoot_at_frame_witness :
    (∀ q, q ≠ (⟨0, 1⟩ : Coord) → (demo_hit.shoot_at ⟨0, 1⟩).2.cellAt q = demo_hit.cellAt q) ∧
    (demo_hit.shoot_at ⟨0, 1⟩).2.ships.map (fun s => (s.name, s.length, s.coords)) =
      demo_hit.ships.map (fun s => (s.name, s.length, s.coords)) ∧
    (demo_hit.shoot_at ⟨0, 1⟩).2.cellAt ⟨0, 1⟩ ≠ demo_hit.cellAt ⟨0, 1⟩ ∧
    (demo_hit.shoot_at ⟨0, 0⟩).2 = demo_hit :=
  ⟨(shoot_at_frame demo_hit ⟨0, 1⟩ demo_hit_built).1,
    (shoot_at_frame demo_hit ⟨0, 1⟩ demo_hit_built).2.1,
    (shoot_at_frame demo_hit ⟨0, 1⟩ demo_hit_built).2.2.2.2 (by decide),
    (shoot_at_frame demo_hit ⟨0, 0⟩ demo_hit_built).2.2.2.1 (by decide)⟩

/-! ## The win condition -/

/-- C17: `all_sunk()` is true exactly when every ship of the ship list is sunk,
that is, when every hit flag of every ship is set; so it is true on a board
without ships, such as a cleared board. -/
theorem all_sunk_iff (b : Board) :
    (b.all_sunk = true ↔ ∀ s ∈ b.ships, s.is_sunk = true) ∧
    (b.all_sunk = true ↔ ∀ s ∈ b.ships, ∀ f ∈ s.hit, f = true) ∧
    (b.ships = [] → b.all_sunk = true) ∧
    b.clear.all_sunk = true ∧ Board.fresh.all_sunk = true := by
  refine ⟨?_, ?_, ?_, rfl, rfl⟩
  · unfold Board.all_sunk
    rw [List.all_eq_true]
  · unfold Board.all_sunk Ship.is_sunk
    simp only [List.all_eq_true]
  · intro h
    unfold Board.all_sunk
    rw [h]; rfl

theorem all_sunk_iff_witness :
    demo_board.all_sunk = false ∧ (∃ s ∈ demo_board.ships, ¬ s.is_sunk = true) ∧
    (demo_hit.shoot_at ⟨0, 1⟩).2.all_sunk = true := by
  have h := (all_sunk_iff demo_board).1
  refine ⟨by decide, ?_, by decide⟩
  by_contra hn
  push_neg at hn
  have := h.mpr hn
  revert this
  decide

/-! ## Rendering -/

theorem cell_char_hidden (v : Cell) :
    Board.cell_char false v =
      if v = Cell.HIT then 'X' else if v = Cell.MISS then 'O' else '.' := by
  cases v <;> rfl

theorem display_hidden_eq_opponent_view (b : Board) :
    b.display false = Game.display_opponent_view b := by
  unfold Board.display Game.display_opponent_view
  simp only [cell_char_hidden]

theorem cell_char_hidden_congr (v w : Cell) (hH : v = Cell.HIT ↔ w = Cell.HIT)
    (hM : v = Cell.MISS ↔ w = Cell.MISS) :
    Board.cell_char false v = Board.cell_char false w := by
  cases v <;> cases w <;> simp_all [Board.cell_char]

theorem cell_char_hidden_ne (v : Cell) : Board.cell_char false v ≠ 'S' := by
  cases v <;> decide

theorem row_labels_no_ship_mark : 'S' ∉ Board.display_row_labels := by
  decide

theorem setw2_no_ship_mark (r : Fin 10) : 'S' ∉ setw2 (r.val + 1) := by
  fin_cases r <;> decide

theorem display_hidden_no_ship_mark (b : Board) : 'S' ∉ b.display false := by
  unfold Board.display
  intro h
  rcases List.mem_append.mp h with h | h
  · exact row_labels_no_ship_mark h
  · obtain ⟨r, _, hr⟩ := List.mem_flatMap.mp h
    rcases List.mem_append.mp hr with hr | hr
    · rcases List.mem_append.mp hr with hr | hr
      · rcases List.mem_append.mp hr with hr | hr
        · exact setw2_no_ship_mark r hr
        · simp at hr
      · obtain ⟨c, _, hc⟩ := List.mem_flatMap.mp hr
        rcases List.mem_cons.mp hc with hc | hc
        · exact cell_char_hidden_ne _ hc.symm
        · simp at hc
    · simp at hr

/-- C18: with rendering modelled as the text written to `cout`, two boards
whose grids have the same HIT cells and the same MISS cells give the same text
under `display(false)` and the same text under `display_opponent_view`,
whatever their other cells and their ship lists are, and the ship mark `S`
occurs in neither text. -/
theorem fog_of_war (b1 b2 : Board)
    (hH : ∀ i j, b1.grid i j = Cell.HIT ↔ b2.grid i j = Cell.HIT)
    (hM : ∀ i j, b1.grid i j = Cell.MISS ↔ b2.grid i j = Cell.MISS) :
    b1.display false = b2.display false ∧
    Game.display_opponent_view b1 = Game.display_opponent_view b2 ∧
    'S' ∉ b1.display false ∧ 'S' ∉ Game.display_opponent_view b1 := by
  have heq : b1.display false = b2.display false := by
    unfold Board.display
    have hcell : ∀ i j, Board.cell_char false (b1.grid i j) = Board.cell_char false (b2.grid i j) :=
      fun i j => cell_char_hidden_congr _ _ (hH i j) (hM i j)
    simp only [hcell]
  refine ⟨heq, ?_, display_hidden_no_ship_mark b1, ?_⟩
  · rw [← display_hidden_eq_opponent_view, ← display_hidden_eq_opponent_view, heq]
  · rw [← display_hidden_eq_opponent_view]
    exact display_hidden_no_ship_mark b1

theorem fog_of_war_witness :
    demo_board.display false = Board.fresh.display false ∧
    Game.display_opponent_view demo_board = Game.display_opponent_view Board.fresh ∧
    'S' ∉ demo_board.display false ∧ 'S' ∉ Game.display_opponent_view demo_board ∧
    'S' ∈ demo_board.display true :=
  ⟨(fog_of_war demo_board Board.fresh (by decide) (by decide)).1,
    (fog_of_war demo_board Board.fresh (by decide) (by decide)).2.1,
    (fog_of_war demo_board Board.fresh (by decide) (by decide)).2.2.1,
    (fog_of_war demo_board Board.fresh (by decide) (by decide)).2.2.2,
    by decide⟩

/-! ## Well-formedness of the boards the game builds -/

theorem getElem?_decomp (l : List Ship) :
    ∀ (k : Nat) (s : Ship), l[k]? = some s → ∃ l1 l2, l = l1 ++ s :: l2 ∧ l1.length = k := by
  induction l with
  | nil => intro k s h; simp at h
  | cons x xs ih =>
    intro k s h
    cases k with
    | zero =>
      rw [List.getElem?_cons_zero] at h
      exact ⟨[], xs, by rw [Option.some.inj h]; rfl, rfl⟩
    | succ k =>
      rw [List.getElem?_cons_succ] at h
      obtain ⟨l1, l2, h1, h2⟩ := ih k s h
      exact ⟨x :: l1, l2, by rw [h1]; rfl, by rw [List.length_cons, h2]⟩

theorem coord_owner_unique (b : Board) (h : b.all_coords.Nodup) (k k' i i' : Nat)
    (s s' : Ship) (p : Coord) (hk : b.ships[k]? = some s) (hi : s.coords[i]? = some p)
    (hk' : b.ships[k']? = some s') (hi' : s'.coords[i']? = some p) : k' = k ∧ i' = i := by
  obtain ⟨l1, l2, h1, h2⟩ := getElem?_decomp b.ships k s hk
  unfold Board.all_coords at h
  rw [h1] at h hk'
  obtain ⟨hn, hother⟩ := nodup_split l1 l2 s h
  rcases getElem?_split l1 l2 s s' k' hk' with ⟨hkl, hs⟩ | ⟨_, hmem, _⟩
  · refine ⟨by rw [hkl, h2], ?_⟩
    rw [hs] at hi'
    exact List.getElem?_inj (List.getElem?_eq_some.mp hi').1 hn (by rw [hi', hi])
  · exact absurd (List.getElem?_mem hi') (hother p (List.getElem?_mem hi) s' hmem)

/-- C19: every board obtained from the empty board by `place_ship` calls
(successful or not) with constructed ships, followed by `shoot_at` calls, is
well formed: (1) each ship has as many coordinates as hit flags, and that
number is its `length`; (2) each ship coordinate is inside the 10x10 grid and
is listed by one ship only, at one index only; (3) a cell is SHIP exactly when
it is a ship coordinate whose hit flag is false; (4) a cell is HIT exactly when
it is a ship coordinate whose hit flag is true. -/
theorem built_invariant (b : Board) (hb : Built b) :
    (∀ s ∈ b.ships, s.coords.length = s.hit.length ∧ (s.hit.length : Int) = s.length) ∧
    (∀ (k i : Nat) (s : Ship) (p : Coord), b.ships[k]? = some s → s.coords[i]? = some p →
      (0 ≤ p.r ∧ p.r < 10 ∧ 0 ≤ p.c ∧ p.c < 10) ∧
      ∀ (k' i' : Nat) (s' : Ship), b.ships[k']? = some s' → s'.coords[i']? = some p →
        k' = k ∧ i' = i) ∧
    (∀ p, b.cellAt p = some Cell.SHIP ↔
      ∃ s ∈ b.ships, ∃ i : Nat, s.coords[i]? = some p ∧ s.hit[i]? = some false) ∧
    (∀ p, b.cellAt p = some Cell.HIT ↔
      ∃ s ∈ b.ships, ∃ i : Nat, s.coords[i]? = some p ∧ s.hit[i]? = some true) := by
  have hwf := built_wellFormed b hb
  refine ⟨?_, ?_, hwf.ship_iff, hwf.hit_iff⟩
  · intro s hs
    have := hwf.sizes s hs
    exact ⟨this.1, by rw [← this.1]; exact this.2⟩
  · intro k i s p hk hi
    refine ⟨?_, fun k' i' s' hk' hi' => coord_owner_unique b hwf.nodup k k' i i' s s' p hk hi hk' hi'⟩
    have hs : s ∈ b.ships := List.getElem?_mem hk
    obtain ⟨f, hflag, _⟩ := flag_of_mem_coords s p (hwf.sizes s hs).1 (List.getElem?_mem hi)
    rw [← in_bounds_iff]
    cases f with
    | false => exact cellAt_some_in_bounds b p _ ((hwf.ship_iff p).mpr ⟨s, hs, hflag⟩)
    | true => exact cellAt_some_in_bounds b p _ ((hwf.hit_iff p).mpr ⟨s, hs, hflag⟩)

theorem built_invariant_witness :
    (∀ s ∈ demo_hit.ships, s.coords.length = s.hit.length ∧ (s.hit.length : Int) = s.length) ∧
    (∀ p, demo_hit.cellAt p = some Cell.HIT ↔
      ∃ s ∈ demo_hit.ships, ∃ i : Nat, s.coords[i]? = some p ∧ s.hit[i]? = some true) ∧
    demo_hit.cellAt ⟨0, 0⟩ = some Cell.HIT ∧ demo_hit.cellAt ⟨0, 1⟩ = some Cell.SHIP :=
  ⟨(built_invariant demo_hit demo_hit_built).1, (built_invariant demo_hit demo_hit_built).2.2.2,
    by decide, by decide⟩

/-! ## Sinking the fleet -/

theorem all_sunk_iff_flags (b : Board) :
    b.all_sunk = true ↔ ∀ s ∈ b.ships, ∀ i : Nat, s.hit[i]? ≠ some false := by
  unfold Board.all_sunk
  rw [List.all_eq_true]
  constructor
  · intro h s hs
    exact (is_sunk_iff s).mp (h s hs)
  · intro h s hs
    exact (is_sunk_iff s).mpr (h s hs)

theorem all_sunk_iff_no_ship (b : Board) (hwf : WellFormed b) :
    b.all_sunk = true ↔ ∀ p, b.cellAt p ≠ some Cell.SHIP := by
  rw [all_sunk_iff_flags]
  constructor
  · intro h p hp
    obtain ⟨s, hs, i, _, hf⟩ := (hwf.ship_iff p).mp hp
    exact h s hs i hf
  · intro h s hs i hf
    have hi : i < s.coords.length := by
      rw [(hwf.sizes s hs).1]
      exact (List.getElem?_eq_some.mp hf).1
    exact h s.coords[i] ((hwf.ship_iff _).mpr ⟨s, hs, i, List.getElem?_eq_getElem hi, hf⟩)

theorem coord_cell (b : Board) (hwf : WellFormed b) (q : Coord) (hq : q ∈ b.all_coords) :
    b.cellAt q = some Cell.SHIP ∨ b.cellAt q = some Cell.HIT := by
  obtain ⟨s, hs, hqs⟩ := List.mem_flatMap.mp hq
  obtain ⟨f, hflag, _⟩ := flag_of_mem_coords s q (hwf.sizes s hs).1 hqs
  cases f with
  | false => exact Or.inl ((hwf.ship_iff q).mpr ⟨s, hs, hflag⟩)
  | true => exact Or.inr ((hwf.hit_iff q).mpr ⟨s, hs, hflag⟩)

theorem all_sunk_iff_hit_cells (b : Board) (hwf : WellFormed b) :
    b.all_sunk = true ↔ b.hit_cells = b.all_coords.length := by
  rw [all_sunk_iff_no_ship b hwf]
  unfold Board.hit_cells
  rw [List.countP_eq_length]
  constructor
  · intro h q hq
    rcases coord_cell b hwf q hq with h' | h'
    · exact absurd h' (h q)
    · simpa using h'
  · intro h p hp
    obtain ⟨s, hs, hflag⟩ := (hwf.ship_iff p).mp hp
    have hmem : p ∈ b.all_coords := List.mem_flatMap.mpr ⟨s, hs, flag_mem s p false hflag⟩
    have := h p hmem
    rw [hp] at this
    simp at this

theorem countP_add_one (L : List Coord) (P P' : Coord → Bool) (p : Coord) (hn : L.Nodup)
    (hp : p ∈ L) (h0 : P p = false) (h1 : P' p = true) (hne : ∀ q ∈ L, q ≠ p → P' q = P q) :
    L.countP P' = L.countP P + 1 := by
  induction L with
  | nil => cases hp
  | cons x xs ih =>
    rw [List.nodup_cons] at hn
    by_cases hx : x = p
    · subst hx
      have hsame : xs.countP P' = xs.countP P := by
        apply List.countP_congr
        intro q hq
        have hqx : q ≠ x := fun h => hn.1 (h ▸ hq)
        rw [hne q (List.mem_cons_of_mem _ hq) hqx]
      rw [List.countP_cons_of_pos _ _ h1, List.countP_cons_of_neg _ _ (by simp [h0]), hsame]
    · have hpx : p ∈ xs := by
        rcases List.mem_cons.mp hp with h | h
        · exact absurd h.symm hx
        · exact h
      have ih' := ih hn.2 hpx (fun q hq => hne q (List.mem_cons_of_mem _ hq))
      have hxx := hne x (List.mem_cons_self _ _) hx
      by_cases hP : P x = true
      · rw [List.countP_cons_of_pos _ _ hP, List.countP_cons_of_pos _ _ (by rw [hxx]; exact hP), ih']
      · rw [List.countP_cons_of_neg _ _ hP, List.countP_cons_of_neg _ _ (by rw [hxx]; exact hP), ih']

theorem hit_cells_shoot (b : Board) (p : Coord) (hwf : WellFormed b) :
    (b.shoot_at p).2.hit_cells =
      b.hit_cells + (if b.cellAt p = some Cell.SHIP then 1 else 0) := by
  rcases shoot_at_cases b p with ⟨hc, he⟩ | ⟨hc, he⟩ | ⟨hc, _, _, _⟩ | ⟨hc, hl, _⟩ | ⟨hc, he⟩
  · rw [he, cellAt_of_not_in_bounds b p hc]
    simp
  · rw [he, if_neg (by rcases hc with h | h <;> rw [h] <;> simp)]
    rfl
  · obtain ⟨l1, s, l2, j, h1, hj, _, _, _, he⟩ := shoot_at_ship_wf b p hwf hc
    have hin := cellAt_some_in_bounds b p _ hc
    have hall : (b.shoot_at p).2.all_coords = b.all_coords := by
      rw [he]
      unfold Board.all_coords
      rw [h1]
      simp [Ship.mark]
    have hcell : ∀ q, (b.shoot_at p).2.cellAt q = (b.setCell p Cell.HIT).cellAt q := by
      intro q; rw [he]; rfl
    have hmem : p ∈ b.all_coords :=
      List.mem_flatMap.mpr ⟨s, by rw [h1]; exact List.mem_append_right _ (List.mem_cons_self _ _),
        List.getElem?_mem hj⟩
    rw [if_pos hc]
    unfold Board.hit_cells
    rw [hall]
    apply countP_add_one b.all_coords _ _ p hwf.nodup hmem
    · simp [hc]
    · simp [hcell, cellAt_setCell_self b p _ hin]
    · intro q _ hq
      rw [hcell, cellAt_setCell_ne b p q _ hq]
  · exfalso
    obtain ⟨s0, hs0, hflag⟩ := (hwf.ship_iff p).mp hc
    exact (shoot_loop_none p b.ships).mp hl s0 hs0 (flag_mem s0 p false hflag)
  · have hin := cellAt_some_in_bounds b p _ hc
    rw [he, if_neg (by rw [hc]; simp), Nat.add_zero]
    unfold Board.hit_cells
    show List.countP _ b.all_coords = _
    apply List.countP_congr
    intro q _
    by_cases hq : q = p
    · rw [hq, cellAt_setCell_self b p _ hin, hc]; simp
    · rw [cellAt_setCell_ne b p q _ hq]

theorem fleet_coords_length (b : Board) (hwf : WellFormed b)
    (hf : b.ships.map (fun s => (s.name, s.length)) = Game.ship_defs) :
    b.all_coords.length = 17 := by
  have hsz := hwf.sizes
  unfold Board.all_coords
  generalize b.ships = l at hf hsz
  rcases l with _ | ⟨s1, _ | ⟨s2, _ | ⟨s3, _ | ⟨s4, _ | ⟨s5, _ | ⟨s6, l⟩⟩⟩⟩⟩⟩ <;>
    simp [Game.ship_defs] at hf
  obtain ⟨⟨_, h1⟩, ⟨_, h2⟩, ⟨_, h3⟩, ⟨_, h4⟩, ⟨_, h5⟩⟩ := hf
  have e1 := (hsz s1 (by simp)).2
  have e2 := (hsz s2 (by simp)).2
  have e3 := (hsz s3 (by simp)).2
  have e4 := (hsz s4 (by simp)).2
  have e5 := (hsz s5 (by simp)).2
  simp only [List.flatMap_cons, List.flatMap_nil, List.length_append, List.length_nil]
  omega

/-- C20: on a board built by `place_ship` calls with constructed ships followed
by `shoot_at` calls, `all_sunk()` is true exactly when no grid cell is marked
SHIP.  When the ships of the board are the fleet of `ship_defs`, the board has
17 distinct ship cells, and `all_sunk()` is true exactly when all 17 of them are
HIT; each `shoot_at` raises the number of HIT ship cells by one when it hits a
SHIP cell and leaves it as it is otherwise. -/
theorem all_sunk_iff_no_ship_cell (b : Board) (hb : Built b) :
    (b.all_sunk = true ↔ ∀ p, b.cellAt p ≠ some Cell.SHIP) ∧
    (b.ships.map (fun s => (s.name, s.length)) = Game.ship_defs →
      b.all_coords.length = 17 ∧ b.all_coords.Nodup ∧ b.hit_cells ≤ 17 ∧
      (b.all_sunk = true ↔ b.hit_cells = 17)) ∧
    (∀ p, (b.shoot_at p).2.hit_cells =
      b.hit_cells + (if b.cellAt p = some Cell.SHIP then 1 else 0)) := by
  have hwf := built_wellFormed b hb
  refine ⟨all_sunk_iff_no_ship b hwf, ?_, fun p => hit_cells_shoot b p hwf⟩
  intro hf
  have hlen := fleet_coords_length b hwf hf
  refine ⟨hlen, hwf.nodup, ?_, ?_⟩
  · rw [← hlen]
    exact List.countP_le_length _
  · rw [all_sunk_iff_hit_cells b hwf, hlen]

theorem fleet_board_built : Built fleet_board :=
  Built.placed _
    (Placed.place _ 4 0 Orientation.HORIZONTAL "Destroyer" 2 _
      (Placed.place _ 3 0 Orientation.HORIZONTAL "Submarine" 3 _
        (Placed.place _ 2 0 Orientation.HORIZONTAL "Cruiser" 3 _
          (Placed.place _ 1 0 Orientation.HORIZONTAL "Battleship" 4 _
            (Placed.place Board.fresh 0 0 Orientation.HORIZONTAL "Carrier" 5 _
              Placed.fresh rfl) rfl) rfl) rfl) rfl)

theorem all_sunk_iff_no_ship_cell_witness :
    fleet_board.ships.map (fun s => (s.name, s.length)) = Game.ship_defs ∧
    (fleet_board.all_coords.length = 17 ∧ fleet_board.all_coords.Nodup ∧
      fleet_board.hit_cells ≤ 17 ∧ (fleet_board.all_sunk = true ↔ fleet_board.hit_cells = 17)) ∧
    fleet_board.hit_cells = 0 ∧
    (fleet_board.shoot_at ⟨0, 0⟩).2.hit_cells = 1 :=
  ⟨by decide, (all_sunk_iff_no_ship_cell fleet_board fleet_board_built).2.1 (by decide),
    by decide, by decide⟩

end Lodicky
